import Mathlib

/-!
Verification development for the Dynamic-Memory-Management-Visualizer
repository.  The Python sources of the two core modules
(`module1_paging_engine` and `module2_segmentation_virtual_memory`) are
shallowly embedded as pure Lean functions: every mutation of an object
becomes an explicit state-passing function, Python dictionaries become
association lists (first binding wins, as dict keys are unique in all
constructed states), and Python `None` becomes `Option.none`.
-/

/-! ## Association-list helpers (embedding of Python dict operations) -/

def lookupA {α : Type} : List (Nat × α) → Nat → Option α
  | [], _ => none
  | (k, v) :: rest, k0 => if k0 = k then some v else lookupA rest k0

/-- Replace the value of the first binding of key `k0` (Python `d[k] = v`
on an existing key). -/
def updateA {α : Type} : List (Nat × α) → Nat → α → List (Nat × α)
  | [], _, _ => []
  | (k, v) :: rest, k0, v0 => if k0 = k then (k, v0) :: rest else (k, v) :: updateA rest k0 v0

/-- Python `d[k] = v`: overwrite if present, append otherwise. -/
def setA {α : Type} (l : List (Nat × α)) (k : Nat) (v : α) : List (Nat × α) :=
  match lookupA l k with
  | some _ => updateA l k v
  | none => l ++ [(k, v)]

/-- Python `del d[k]`: remove the (first) binding of key `k`. -/
def eraseA {α : Type} : List (Nat × α) → Nat → List (Nat × α)
  | [], _ => []
  | (k, v) :: rest, k0 => if k0 = k then rest else (k, v) :: eraseA rest k0

/-- Index of the first occurrence of `x` in a list (Python `list.index`,
returning `none` instead of raising `ValueError`). -/
def firstIdx {α : Type} [DecidableEq α] (x : α) : List α → Option Nat
  | [] => none
  | a :: rest => if a = x then some 0 else (firstIdx x rest).map (· + 1)

/-! ## module1_paging_engine / physical_memory.py -/

inductive FrameStatus
  | FREE
  | ALLOCATED
deriving DecidableEq

structure Frame where
  frame_id : Nat
  size : Nat
  status : FrameStatus
  process_id : Option Nat
  page_id : Option Nat
  allocated_size : Nat
deriving DecidableEq

/-- `Frame.__init__`. -/
def Frame.init (frame_id size : Nat) : Frame :=
  ⟨frame_id, size, FrameStatus.FREE, none, none, 0⟩

/-- `Frame.allocate`: returns the mutated frame on success (Python returns
`True` and mutates in place), `none` on failure (Python returns `False`). -/
def Frame.allocate (f : Frame) (process_id page_id size : Nat) : Option Frame :=
  if f.status = FrameStatus.FREE ∧ size ≤ f.size then
    some { f with status := FrameStatus.ALLOCATED, process_id := some process_id,
                  page_id := some page_id, allocated_size := min size f.size }
  else none

/-- `Frame.deallocate`. -/
def Frame.deallocate (f : Frame) : Option Frame :=
  if f.status = FrameStatus.ALLOCATED then
    some { f with status := FrameStatus.FREE, process_id := none,
                  page_id := none, allocated_size := 0 }
  else none

/-- `frame.deallocate()` with the boolean result discarded. -/
def Frame.deallocateIgnore (f : Frame) : Frame :=
  match f.deallocate with
  | some f2 => f2
  | none => f

structure PhysicalMemory where
  num_frames : Nat
  frame_size : Nat
  frames : List Frame
deriving DecidableEq

/-- `PhysicalMemory.__init__`. -/
def PhysicalMemory.init (num_frames frame_size : Nat) : PhysicalMemory :=
  ⟨num_frames, frame_size, (List.range num_frames).map (fun i => Frame.init i frame_size)⟩

/-- `PhysicalMemory.get_frame` (bounds-checked index). -/
def PhysicalMemory.get_frame (pm : PhysicalMemory) (frame_id : Nat) : Option Frame :=
  pm.frames.get? frame_id

/-- `PhysicalMemory.reset`: `frame.deallocate()` on every frame. -/
def PhysicalMemory.reset (pm : PhysicalMemory) : PhysicalMemory :=
  { pm with frames := pm.frames.map Frame.deallocateIgnore }

/-! ## module1_paging_engine / allocator.py -/

inductive AllocationStrategy
  | FIRST_FIT
  | BEST_FIT
  | NEXT_FIT
deriving DecidableEq

structure MemoryAllocator where
  strategy : AllocationStrategy
  next_fit_start : Nat
deriving DecidableEq

/-- `MemoryAllocator._first_fit`: scan in order, allocate the first FREE
frame that fits; returns `(frame.frame_id, updated frames)`. -/
def firstFitGo (process_id page_id size : Nat) : List Frame → Option (Nat × List Frame)
  | [] => none
  | f :: rest =>
    if f.status = FrameStatus.FREE ∧ size ≤ f.size then
      match f.allocate process_id page_id size with
      | some f2 => some (f.frame_id, f2 :: rest)
      | none => (firstFitGo process_id page_id size rest).map (fun r => (r.1, f :: r.2))
    else
      (firstFitGo process_id page_id size rest).map (fun r => (r.1, f :: r.2))

/-- The scan of `MemoryAllocator._best_fit`: running best `(index, waste)`
with strict `<` improvement (`best_waste` starts at `inf`, modelled by
`none`); `i` is the index of the head of the remaining list. -/
def bestFitScan (size : Nat) : List Frame → Nat → Option (Nat × Nat) → Option (Nat × Nat)
  | [], _, best => best
  | f :: rest, i, best =>
    if f.status = FrameStatus.FREE ∧ size ≤ f.size then
      let waste := f.size - size
      match best with
      | none => bestFitScan size rest (i + 1) (some (i, waste))
      | some (bi, bw) =>
        if waste < bw then bestFitScan size rest (i + 1) (some (i, waste))
        else bestFitScan size rest (i + 1) (some (bi, bw))
    else bestFitScan size rest (i + 1) best

/-- `MemoryAllocator._best_fit`. -/
def bestFit (frames : List Frame) (process_id page_id size : Nat) : Option (Nat × List Frame) :=
  match bestFitScan size frames 0 none with
  | none => none
  | some (bi, _) =>
    match frames.get? bi with
    | none => none
    | some f =>
      match f.allocate process_id page_id size with
      | some f2 => some (f.frame_id, frames.set bi f2)
      | none => none

/-- One scan segment of `MemoryAllocator._next_fit` over a list of frame
indices; returns `(frame_id, new cursor, updated frames)`. -/
def nextFitTry (process_id page_id size : Nat) (frames : List Frame) :
    List Nat → Option (Nat × Nat × List Frame)
  | [] => none
  | i :: rest =>
    match frames.get? i with
    | none => nextFitTry process_id page_id size frames rest
    | some f =>
      if f.status = FrameStatus.FREE ∧ size ≤ f.size then
        match f.allocate process_id page_id size with
        | some f2 => some (f.frame_id, (i + 1) % frames.length, frames.set i f2)
        | none => nextFitTry process_id page_id size frames rest
      else nextFitTry process_id page_id size frames rest

/-- `MemoryAllocator._next_fit`: scan `range(start, len)` then wrap to
`range(0, start)`. -/
def nextFit (process_id page_id size start : Nat) (frames : List Frame) :
    Option (Nat × Nat × List Frame) :=
  match nextFitTry process_id page_id size frames ((List.range frames.length).drop start) with
  | some r => some r
  | none => nextFitTry process_id page_id size frames (List.range start)

/-- `MemoryAllocator.allocate`: dispatch on strategy; returns
`(frame_id, updated frames, updated allocator)`. -/
def MemoryAllocator.allocate (a : MemoryAllocator) (frames : List Frame)
    (process_id page_id size : Nat) : Option (Nat × List Frame × MemoryAllocator) :=
  match a.strategy with
  | AllocationStrategy.FIRST_FIT =>
    (firstFitGo process_id page_id size frames).map (fun r => (r.1, r.2, a))
  | AllocationStrategy.BEST_FIT =>
    (bestFit frames process_id page_id size).map (fun r => (r.1, r.2, a))
  | AllocationStrategy.NEXT_FIT =>
    match nextFit process_id page_id size a.next_fit_start frames with
    | some (fid, cur, fr) => some (fid, fr, { a with next_fit_start := cur })
    | none => none

/-! ## module1_paging_engine / page_table.py -/

inductive PageStatus
  | NOT_PRESENT
  | PRESENT
  | MODIFIED
  | REFERENCED
deriving DecidableEq

structure PageTableEntry where
  page_id : Nat
  frame_id : Option Nat
  status : PageStatus
  valid : Bool
  present_bit : Bool
  modified_bit : Bool
  referenced_bit : Bool
  protection_bits : Nat
deriving DecidableEq

/-- `PageTableEntry.__init__`. -/
def PageTableEntry.init (page_id : Nat) : PageTableEntry :=
  ⟨page_id, none, PageStatus.NOT_PRESENT, false, false, false, false, 0⟩

/-- `PageTableEntry.map_to_frame`. -/
def PageTableEntry.map_to_frame (e : PageTableEntry) (frame_id : Nat) : PageTableEntry :=
  { e with frame_id := some frame_id, present_bit := true, valid := true,
           status := PageStatus.PRESENT }

/-- `PageTableEntry.unmap_frame`. -/
def PageTableEntry.unmap_frame (e : PageTableEntry) : PageTableEntry :=
  { e with frame_id := none, present_bit := false, status := PageStatus.NOT_PRESENT }

/-- `PageTableEntry.mark_modified`. -/
def PageTableEntry.mark_modified (e : PageTableEntry) : PageTableEntry :=
  { e with modified_bit := true, status := PageStatus.MODIFIED }

/-- `PageTableEntry.mark_referenced`. -/
def PageTableEntry.mark_referenced (e : PageTableEntry) : PageTableEntry :=
  { e with referenced_bit := true,
           status := if e.status = PageStatus.PRESENT then PageStatus.REFERENCED else e.status }

structure PageTable where
  process_id : Nat
  page_size : Nat
  entries : List (Nat × PageTableEntry)
deriving DecidableEq

/-- `PageTable.__init__`. -/
def PageTable.init (process_id page_size : Nat) : PageTable :=
  ⟨process_id, page_size, []⟩

/-- `PageTable.get_entry`. -/
def PageTable.get_entry (pt : PageTable) (page_id : Nat) : Option PageTableEntry :=
  lookupA pt.entries page_id

/-- `PageTable.create_page`: create the entry if absent; returns the entry
(existing or new) together with the updated table. -/
def PageTable.create_page (pt : PageTable) (page_id : Nat) : PageTableEntry × PageTable :=
  match lookupA pt.entries page_id with
  | some e => (e, pt)
  | none =>
    let e := PageTableEntry.init page_id
    (e, { pt with entries := pt.entries ++ [(page_id, e)] })

/-- `PageTable.get_mapped_pages`. -/
def PageTable.get_mapped_pages (pt : PageTable) : List Nat :=
  (pt.entries.filter (fun kv => kv.2.present_bit)).map Prod.fst

/-! ## module1_paging_engine / paging_engine.py -/

structure ProcInfo where
  num_pages : Nat
  allocated_pages : Nat
deriving DecidableEq

structure PagingSimulator where
  physical_memory : PhysicalMemory
  page_tables : List (Nat × PageTable)
  allocator : MemoryAllocator
  page_faults : Nat
  successful_translations : Nat
  processes : List (Nat × ProcInfo)
deriving DecidableEq

/-- `PagingSimulator.__init__`. -/
def PagingSimulator.init (num_frames frame_size : Nat)
    (strategy : AllocationStrategy) : PagingSimulator :=
  ⟨PhysicalMemory.init num_frames frame_size, [], ⟨strategy, 0⟩, 0, 0, []⟩

/-- The `for i in range(num_pages): page_table.create_page(i)` loop of
`create_process`. -/
def createPagesUpTo (pt : PageTable) (num_pages : Nat) : PageTable :=
  (List.range num_pages).foldl (fun t i => (t.create_page i).2) pt

/-- `PagingSimulator.create_process`. -/
def PagingSimulator.create_process (s : PagingSimulator) (process_id num_pages : Nat) :
    Bool × PagingSimulator :=
  match lookupA s.page_tables process_id with
  | some _ => (false, s)
  | none =>
    let pt := createPagesUpTo (PageTable.init process_id s.physical_memory.frame_size) num_pages
    (true, { s with page_tables := s.page_tables ++ [(process_id, pt)],
                    processes := setA s.processes process_id ⟨num_pages, 0⟩ })

/-- `PagingSimulator.allocate_page`. -/
def PagingSimulator.allocate_page (s : PagingSimulator) (process_id page_id : Nat)
    (size : Option Nat) : Option Nat × PagingSimulator :=
  match lookupA s.page_tables process_id with
  | none => (none, s)
  | some pt =>
    let ept :=
      match lookupA pt.entries page_id with
      | some e0 => (e0, pt)
      | none => pt.create_page page_id
    let e := ept.1
    let pt1 := ept.2
    let s1 := { s with page_tables := updateA s.page_tables process_id pt1 }
    if e.present_bit = true ∧ e.frame_id.isSome then
      (e.frame_id, s1)
    else
      let alloc_size := size.getD s.physical_memory.frame_size
      match MemoryAllocator.allocate s.allocator s.physical_memory.frames
          process_id page_id alloc_size with
      | none => (none, s1)
      | some (fid, frames2, alloc2) =>
        let e2 := e.map_to_frame fid
        let pt2 := { pt1 with entries := updateA pt1.entries page_id e2 }
        let pm2 := { s.physical_memory with frames := frames2 }
        -- second `frame.allocate` call on the already-allocated frame (a no-op)
        let pm3 :=
          match pm2.get_frame fid with
          | some f =>
            match f.allocate process_id page_id alloc_size with
            | some f2 => { pm2 with frames := pm2.frames.set fid f2 }
            | none => pm2
          | none => pm2
        let procs2 :=
          match lookupA s.processes process_id with
          | some info =>
            updateA s.processes process_id { info with allocated_pages := info.allocated_pages + 1 }
          | none => s.processes
        (some fid, { s with physical_memory := pm3,
                            page_tables := updateA s.page_tables process_id pt2,
                            allocator := alloc2,
                            processes := procs2 })

/-- `PagingSimulator.deallocate_page`.  Nat subtraction models Python's
`max(0, allocated_pages - 1)`. -/
def PagingSimulator.deallocate_page (s : PagingSimulator) (process_id page_id : Nat) :
    Bool × PagingSimulator :=
  match lookupA s.page_tables process_id with
  | none => (false, s)
  | some pt =>
    match lookupA pt.entries page_id with
    | none => (false, s)
    | some e =>
      match e.present_bit, e.frame_id with
      | true, some fid =>
        let pm2 :=
          match s.physical_memory.get_frame fid with
          | some f =>
            match f.deallocate with
            | some f2 => { s.physical_memory with frames := s.physical_memory.frames.set fid f2 }
            | none => s.physical_memory
          | none => s.physical_memory
        let e2 := e.unmap_frame
        let pt2 := { pt with entries := updateA pt.entries page_id e2 }
        let procs2 :=
          match lookupA s.processes process_id with
          | some info =>
            updateA s.processes process_id { info with allocated_pages := info.allocated_pages - 1 }
          | none => s.processes
        (true, { s with physical_memory := pm2,
                        page_tables := updateA s.page_tables process_id pt2,
                        processes := procs2 })
      | _, _ => (false, s)

/-- The frame-freeing loop of `PagingSimulator.remove_process`. -/
def freeMapped (pt : PageTable) : PhysicalMemory → List Nat → PhysicalMemory
  | pm, [] => pm
  | pm, pg :: rest =>
    let pm2 :=
      match lookupA pt.entries pg with
      | some e =>
        match e.frame_id with
        | some fid =>
          match pm.get_frame fid with
          | some f =>
            match f.deallocate with
            | some f2 => { pm with frames := pm.frames.set fid f2 }
            | none => pm
          | none => pm
        | none => pm
      | none => pm
    freeMapped pt pm2 rest

/-- `PagingSimulator.remove_process`. -/
def PagingSimulator.remove_process (s : PagingSimulator) (process_id : Nat) :
    Bool × PagingSimulator :=
  match lookupA s.page_tables process_id with
  | none => (false, s)
  | some pt =>
    let pm2 := freeMapped pt s.physical_memory pt.get_mapped_pages
    (true, { s with physical_memory := pm2,
                    page_tables := eraseA s.page_tables process_id,
                    processes := eraseA s.processes process_id })

/-- `PagingSimulator.translate_address`.  The result is
`(physical_address, offset, page_fault)`; the outer `Option` is Python's
`None` for an unknown process. -/
def PagingSimulator.translate_address (s : PagingSimulator) (process_id logical_address : Nat) :
    Option (Option Nat × Nat × Bool) × PagingSimulator :=
  match lookupA s.page_tables process_id with
  | none => (none, s)
  | some pt =>
    let pg := logical_address / pt.page_size
    let off := logical_address % pt.page_size
    match lookupA pt.entries pg with
    | none => (some (none, off, true), { s with page_faults := s.page_faults + 1 })
    | some e =>
      match e.present_bit, e.frame_id with
      | true, some fid =>
        match s.physical_memory.get_frame fid with
        | none => (some (none, off, true), { s with page_faults := s.page_faults + 1 })
        | some _ =>
          let e2 := e.mark_referenced
          let pt2 := { pt with entries := updateA pt.entries pg e2 }
          (some (some (fid * s.physical_memory.frame_size + off), off, false),
           { s with page_tables := updateA s.page_tables process_id pt2,
                    successful_translations := s.successful_translations + 1 })
      | _, _ =>
        let e2 := e.mark_referenced
        let pt2 := { pt with entries := updateA pt.entries pg e2 }
        (some (none, off, true),
         { s with page_tables := updateA s.page_tables process_id pt2,
                  page_faults := s.page_faults + 1 })

/-- `PagingSimulator.access_page`. -/
def PagingSimulator.access_page (s : PagingSimulator) (process_id page_id : Nat)
    (write : Bool) : Bool × PagingSimulator :=
  match lookupA s.page_tables process_id with
  | none => (false, s)
  | some pt =>
    match lookupA pt.entries page_id with
    | none => (false, { s with page_faults := s.page_faults + 1 })
    | some e =>
      if e.present_bit = true then
        let e2 := e.mark_referenced
        let e3 := if write then e2.mark_modified else e2
        let pt2 := { pt with entries := updateA pt.entries page_id e3 }
        (true, { s with page_tables := updateA s.page_tables process_id pt2,
                        successful_translations := s.successful_translations + 1 })
      else (false, { s with page_faults := s.page_faults + 1 })

/-- `PagingSimulator.reset`. -/
def PagingSimulator.reset (s : PagingSimulator) : PagingSimulator :=
  { s with physical_memory := s.physical_memory.reset,
           page_tables := [],
           processes := [],
           page_faults := 0,
           successful_translations := 0,
           allocator := { s.allocator with next_fit_start := 0 } }

/-- The `total_pages` field of `PagingSimulator.get_statistics`
(sum over page tables of `len(entries)`). -/
def PagingSimulator.total_pages (s : PagingSimulator) : Nat :=
  (s.page_tables.map (fun kv => kv.2.entries.length)).sum

/-- States reachable from a freshly constructed `PagingSimulator` through
its public operations. -/
inductive Reachable : PagingSimulator → Prop
  | init (num_frames frame_size : Nat) (strategy : AllocationStrategy) :
      Reachable (PagingSimulator.init num_frames frame_size strategy)
  | create_process (s : PagingSimulator) (pid np : Nat) :
      Reachable s → Reachable (s.create_process pid np).2
  | allocate_page (s : PagingSimulator) (pid pg : Nat) (size : Option Nat) :
      Reachable s → Reachable (s.allocate_page pid pg size).2
  | deallocate_page (s : PagingSimulator) (pid pg : Nat) :
      Reachable s → Reachable (s.deallocate_page pid pg).2
  | remove_process (s : PagingSimulator) (pid : Nat) :
      Reachable s → Reachable (s.remove_process pid).2
  | translate_address (s : PagingSimulator) (pid addr : Nat) :
      Reachable s → Reachable (s.translate_address pid addr).2
  | access_page (s : PagingSimulator) (pid pg : Nat) (w : Bool) :
      Reachable s → Reachable (s.access_page pid pg w).2
  | reset (s : PagingSimulator) :
      Reachable s → Reachable s.reset

/-- The exclusive-ownership property of claim C5: no two present
page-table entries (across all processes) reference the same frame. -/
def ExclusiveOwnership (s : PagingSimulator) : Prop :=
  ∀ pid1 pt1 pg1 e1 pid2 pt2 pg2 e2 fid,
    lookupA s.page_tables pid1 = some pt1 →
    lookupA pt1.entries pg1 = some e1 →
    lookupA s.page_tables pid2 = some pt2 →
    lookupA pt2.entries pg2 = some e2 →
    e1.present_bit = true → e2.present_bit = true →
    e1.frame_id = some fid → e2.frame_id = some fid →
    pid1 = pid2 ∧ pg1 = pg2

/-- The inductive invariant carried through `Reachable`:
frame ids equal positions, page-table keys and entry keys are duplicate
free, every present entry points at an ALLOCATED frame, and present
entries own their frames exclusively. -/
structure SimInv (s : PagingSimulator) : Prop where
  ids : ∀ i f, s.physical_memory.frames.get? i = some f → f.frame_id = i
  ndk : (s.page_tables.map Prod.fst).Nodup
  entk : ∀ pid pt, lookupA s.page_tables pid = some pt → (pt.entries.map Prod.fst).Nodup
  pok : ∀ pid pt pg e, lookupA s.page_tables pid = some pt →
    lookupA pt.entries pg = some e → e.present_bit = true →
    ∃ fid f, e.frame_id = some fid ∧ s.physical_memory.frames.get? fid = some f ∧
      f.status = FrameStatus.ALLOCATED
  exc : ExclusiveOwnership s

/-! ## module2_segmentation_virtual_memory / page_replacement.py

`future_references` defaults to Python `None`; the only consumer
(`OptimalReplacement` on an eviction) replaces `None` by `[]`, so the
parameter is embedded directly as a `List Nat`. -/

inductive ReplacementAlgorithm
  | FIFO
  | LRU
  | OPTIMAL
deriving DecidableEq

structure AccessResult where
  page_id : Nat
  page_fault : Bool
  replaced_page : Option Nat
  frame_index : Option Nat
  algorithm : ReplacementAlgorithm
deriving DecidableEq

structure FIFOReplacement where
  num_frames : Nat
  frames : List (Option Nat)
  page_faults : Nat
  page_hits : Nat
  queue : List Nat
deriving DecidableEq

/-- `FIFOReplacement.__init__`. -/
def FIFOReplacement.init (num_frames : Nat) : FIFOReplacement :=
  ⟨num_frames, List.replicate num_frames none, 0, 0, []⟩

/-- `FIFOReplacement.access_page`. -/
def FIFOReplacement.access_page (st : FIFOReplacement) (page_id : Nat) :
    AccessResult × FIFOReplacement :=
  if (some page_id) ∈ st.frames then
    (⟨page_id, false, none, firstIdx (some page_id) st.frames, ReplacementAlgorithm.FIFO⟩,
     { st with page_hits := st.page_hits + 1 })
  else
    let st1 := { st with page_faults := st.page_faults + 1 }
    match firstIdx none st1.frames with
    | some free =>
      (⟨page_id, true, none, some free, ReplacementAlgorithm.FIFO⟩,
       { st1 with frames := st1.frames.set free (some page_id),
                  queue := st1.queue ++ [page_id] })
    | none =>
      match st1.queue with
      | [] => (⟨page_id, true, none, none, ReplacementAlgorithm.FIFO⟩, st1)
      | oldest :: qrest =>
        match firstIdx (some oldest) st1.frames with
        | some i =>
          (⟨page_id, true, some oldest, some i, ReplacementAlgorithm.FIFO⟩,
           { st1 with frames := st1.frames.set i (some page_id), queue := qrest ++ [page_id] })
        | none =>
          -- popped head occupies no slot: the scan finds nothing, the new page
          -- is not placed and no eviction is reported
          (⟨page_id, true, none, none, ReplacementAlgorithm.FIFO⟩, { st1 with queue := qrest })

structure LRUReplacement where
  num_frames : Nat
  frames : List (Option Nat)
  page_faults : Nat
  page_hits : Nat
  access_order : List Nat
deriving DecidableEq

/-- `LRUReplacement.__init__`. -/
def LRUReplacement.init (num_frames : Nat) : LRUReplacement :=
  ⟨num_frames, List.replicate num_frames none, 0, 0, []⟩

/-- `LRUReplacement.access_page`. -/
def LRUReplacement.access_page (st : LRUReplacement) (page_id : Nat) :
    AccessResult × LRUReplacement :=
  if (some page_id) ∈ st.frames then
    let order1 :=
      if page_id ∈ st.access_order then st.access_order.erase page_id else st.access_order
    (⟨page_id, false, none, firstIdx (some page_id) st.frames, ReplacementAlgorithm.LRU⟩,
     { st with page_hits := st.page_hits + 1, access_order := order1 ++ [page_id] })
  else
    let st1 := { st with page_faults := st.page_faults + 1 }
    match firstIdx none st1.frames with
    | some free =>
      (⟨page_id, true, none, some free, ReplacementAlgorithm.LRU⟩,
       { st1 with frames := st1.frames.set free (some page_id),
                  access_order := st1.access_order ++ [page_id] })
    | none =>
      match st1.access_order with
      | [] => (⟨page_id, true, none, none, ReplacementAlgorithm.LRU⟩, st1)
      | lru :: orest =>
        match firstIdx (some lru) st1.frames with
        | some i =>
          (⟨page_id, true, some lru, some i, ReplacementAlgorithm.LRU⟩,
           { st1 with frames := st1.frames.set i (some page_id),
                      access_order := orest ++ [page_id] })
        | none =>
          (⟨page_id, true, none, none, ReplacementAlgorithm.LRU⟩,
           { st1 with access_order := orest })

structure OptimalReplacement where
  num_frames : Nat
  frames : List (Option Nat)
  page_faults : Nat
  page_hits : Nat
deriving DecidableEq

/-- `OptimalReplacement.__init__`. -/
def OptimalReplacement.init (num_frames : Nat) : OptimalReplacement :=
  ⟨num_frames, List.replicate num_frames none, 0, 0⟩

/-- The eviction scan of `OptimalReplacement.access_page`:
`page_to_replace`/`max_distance` accumulators (`max_distance` starts at
`-1`); a resident page with no future occurrence is returned immediately
(the `break`). -/
def optScan (future : List Nat) : List (Option Nat) → Option Nat → Int → Option Nat
  | [], best, _ => best
  | none :: rest, best, maxd => optScan future rest best maxd
  | some p :: rest, best, maxd =>
    match firstIdx p future with
    | none => some p
    | some d =>
      if (d : Int) > maxd then optScan future rest (some p) (d : Int)
      else optScan future rest best maxd

/-- `OptimalReplacement.access_page`. -/
def OptimalReplacement.access_page (st : OptimalReplacement) (page_id : Nat)
    (future_references : List Nat) : AccessResult × OptimalReplacement :=
  if (some page_id) ∈ st.frames then
    (⟨page_id, false, none, firstIdx (some page_id) st.frames, ReplacementAlgorithm.OPTIMAL⟩,
     { st with page_hits := st.page_hits + 1 })
  else
    let st1 := { st with page_faults := st.page_faults + 1 }
    match firstIdx none st1.frames with
    | some free =>
      (⟨page_id, true, none, some free, ReplacementAlgorithm.OPTIMAL⟩,
       { st1 with frames := st1.frames.set free (some page_id) })
    | none =>
      let victim :=
        match optScan future_references st1.frames none (-1) with
        | some v => some v
        | none => st1.frames.findSome? id   -- `next(p for p in frames if p is not None)`
      match victim with
      | none => (⟨page_id, true, none, none, ReplacementAlgorithm.OPTIMAL⟩, st1)
      | some v =>
        match firstIdx (some v) st1.frames with
        | some i =>
          (⟨page_id, true, some v, some i, ReplacementAlgorithm.OPTIMAL⟩,
           { st1 with frames := st1.frames.set i (some page_id) })
        | none => (⟨page_id, true, none, none, ReplacementAlgorithm.OPTIMAL⟩, st1)

/-! ## module2_segmentation_virtual_memory / virtual_memory.py -/

/-- `BackingStore`: `page_id -> page_data`; the stored blob is always
`bytes(frame_size)`, embedded as its length. -/
structure BackingStore where
  pages : List (Nat × Nat)
deriving DecidableEq

def BackingStore.init : BackingStore := ⟨[]⟩

/-- `BackingStore.store_page`. -/
def BackingStore.store_page (bs : BackingStore) (page_id data : Nat) : BackingStore :=
  ⟨setA bs.pages page_id data⟩

/-- `BackingStore.load_page`. -/
def BackingStore.load_page (bs : BackingStore) (page_id : Nat) : Option Nat :=
  lookupA bs.pages page_id

/-- `BackingStore.has_page`. -/
def BackingStore.has_page (bs : BackingStore) (page_id : Nat) : Bool :=
  (lookupA bs.pages page_id).isSome

/-- `BackingStore.remove_page` (the boolean result is discarded by the
only caller). -/
def BackingStore.remove_page (bs : BackingStore) (page_id : Nat) : BackingStore :=
  ⟨eraseA bs.pages page_id⟩

/-- The polymorphic replacement engine held by `VirtualMemoryManager`
(class hierarchy embedded as a sum over the three concrete classes). -/
inductive Replacement
  | fifo : FIFOReplacement → Replacement
  | lru : LRUReplacement → Replacement
  | optimal : OptimalReplacement → Replacement
deriving DecidableEq

/-- The shared `frames` slot array of the replacement engine. -/
def Replacement.frames : Replacement → List (Option Nat)
  | Replacement.fifo st => st.frames
  | Replacement.lru st => st.frames
  | Replacement.optimal st => st.frames

/-- Overwrite the `frames` slot array in place (used by
`VirtualMemoryManager.remove_process`). -/
def Replacement.setFrames : Replacement → List (Option Nat) → Replacement
  | Replacement.fifo st, fr => Replacement.fifo { st with frames := fr }
  | Replacement.lru st, fr => Replacement.lru { st with frames := fr }
  | Replacement.optimal st, fr => Replacement.optimal { st with frames := fr }

/-- `PageReplacementAlgorithm.is_page_loaded`. -/
def Replacement.is_page_loaded (r : Replacement) (page_id : Nat) : Bool :=
  (some page_id) ∈ r.frames

/-- Virtual dispatch of `access_page`. -/
def Replacement.access_page (r : Replacement) (page_id : Nat) (future_references : List Nat) :
    AccessResult × Replacement :=
  match r with
  | Replacement.fifo st =>
    let p := st.access_page page_id
    (p.1, Replacement.fifo p.2)
  | Replacement.lru st =>
    let p := st.access_page page_id
    (p.1, Replacement.lru p.2)
  | Replacement.optimal st =>
    let p := st.access_page page_id future_references
    (p.1, Replacement.optimal p.2)

/-- `VirtualMemoryManager._create_replacement_algorithm`. -/
def createReplacementAlgorithm (algorithm : ReplacementAlgorithm) (num_frames : Nat) :
    Replacement :=
  match algorithm with
  | ReplacementAlgorithm.FIFO => Replacement.fifo (FIFOReplacement.init num_frames)
  | ReplacementAlgorithm.LRU => Replacement.lru (LRUReplacement.init num_frames)
  | ReplacementAlgorithm.OPTIMAL => Replacement.optimal (OptimalReplacement.init num_frames)

/-- The result record of `VirtualMemoryManager.access_page` (the error
message string of the two error dictionaries is elided; `hard_error`
records that the `error` key is present). -/
structure VMResult where
  success : Bool
  page_fault : Bool
  replaced_page : Option Nat
  frame_index : Option Nat
  swap_in : Bool
  swap_out : Bool
  hard_error : Bool
deriving DecidableEq

structure VirtualMemoryManager where
  num_frames : Nat
  frame_size : Nat
  algorithm : ReplacementAlgorithm
  replacement : Replacement
  backing_store : BackingStore
  process_pages : List (Nat × List Nat)
  swap_ins : Nat
  swap_outs : Nat
deriving DecidableEq

/-- `VirtualMemoryManager.__init__`. -/
def VirtualMemoryManager.init (num_frames frame_size : Nat)
    (algorithm : ReplacementAlgorithm) : VirtualMemoryManager :=
  ⟨num_frames, frame_size, algorithm, createReplacementAlgorithm algorithm num_frames,
   BackingStore.init, [], 0, 0⟩

/-- The backing-store seeding loop of `load_process`. -/
def seedPages (frame_size : Nat) : BackingStore → List Nat → BackingStore
  | bs, [] => bs
  | bs, pg :: rest =>
    let bs2 := if bs.has_page pg then bs else bs.store_page pg frame_size
    seedPages frame_size bs2 rest

/-- `VirtualMemoryManager.load_process`. -/
def VirtualMemoryManager.load_process (m : VirtualMemoryManager) (process_id : Nat)
    (pages : List Nat) : Bool × VirtualMemoryManager :=
  (true, { m with process_pages := setA m.process_pages process_id pages,
                  backing_store := seedPages m.frame_size m.backing_store pages })

/-- The per-page loop of `VirtualMemoryManager.remove_process`: remove the
page from the backing store and clear every frame slot holding it. -/
def removeLoop : VirtualMemoryManager → List Nat → VirtualMemoryManager
  | m, [] => m
  | m, pg :: rest =>
    let m1 := { m with backing_store := m.backing_store.remove_page pg }
    let cleared :=
      m1.replacement.setFrames
        (m1.replacement.frames.map (fun x => if x = some pg then none else x))
    let m2 :=
      if m1.replacement.is_page_loaded pg then { m1 with replacement := cleared }
      else m1
    removeLoop m2 rest

/-- `VirtualMemoryManager.remove_process`. -/
def VirtualMemoryManager.remove_process (m : VirtualMemoryManager) (process_id : Nat) :
    Bool × VirtualMemoryManager :=
  match lookupA m.process_pages process_id with
  | none => (false, m)
  | some pages =>
    let m2 := removeLoop m pages
    (true, { m2 with process_pages := eraseA m2.process_pages process_id })

/-- `VirtualMemoryManager.access_page`.  The `write` flag is accepted and
ignored, as in the source. -/
def VirtualMemoryManager.access_page (m : VirtualMemoryManager) (process_id page_id : Nat)
    (_write : Bool) (future_references : List Nat) : VMResult × VirtualMemoryManager :=
  match lookupA m.process_pages process_id with
  | none => (⟨false, false, none, none, false, false, true⟩, m)
  | some pages =>
    if page_id ∈ pages then
      if m.replacement.is_page_loaded page_id then
        let p := m.replacement.access_page page_id future_references
        (⟨true, p.1.page_fault, p.1.replaced_page, p.1.frame_index, false, false, false⟩,
         { m with replacement := p.2 })
      else if m.backing_store.has_page page_id = false then
        (⟨false, true, none, none, false, false, true⟩, m)
      else
        let p := m.replacement.access_page page_id future_references
        match p.1.replaced_page with
        | some replaced =>
          (⟨true, p.1.page_fault, p.1.replaced_page, p.1.frame_index, true, true, false⟩,
           { m with replacement := p.2,
                    backing_store := m.backing_store.store_page replaced m.frame_size,
                    swap_ins := m.swap_ins + 1,
                    swap_outs := m.swap_outs + 1 })
        | none =>
          (⟨true, p.1.page_fault, p.1.replaced_page, p.1.frame_index, true, false, false⟩,
           { m with replacement := p.2, swap_ins := m.swap_ins + 1 })
    else (⟨false, false, none, none, false, false, true⟩, m)

/-- `VirtualMemoryManager.translate_address`. -/
def VirtualMemoryManager.translate_address (m : VirtualMemoryManager)
    (process_id virtual_address : Nat) : Option (Option Nat × Nat × Bool) :=
  match lookupA m.process_pages process_id with
  | none => none
  | some pages =>
    let pg := virtual_address / m.frame_size
    let off := virtual_address % m.frame_size
    if pg ∈ pages then
      if m.replacement.is_page_loaded pg = false then some (none, off, true)
      else
        match firstIdx (some pg) m.replacement.frames with
        | some i => some (some (i * m.frame_size + off), off, false)
        | none => some (none, off, true)
    else none

/-! ## module2_segmentation_virtual_memory / segmentation_engine.py -/

inductive SegmentStatus
  | ALLOCATED
  | FREE
deriving DecidableEq

structure Segment where
  segment_id : Nat
  name : String
  base : Nat
  limit : Nat
  status : SegmentStatus
deriving DecidableEq

/-- `Segment.__init__`. -/
def Segment.init (segment_id : Nat) (name : String) (base limit : Nat) : Segment :=
  ⟨segment_id, name, base, limit, SegmentStatus.ALLOCATED⟩

/-- `Segment.contains_address` (offsets are `Nat`, so `0 <= offset` holds). -/
def Segment.contains_address (s : Segment) (offset : Nat) : Bool :=
  offset < s.limit

structure SegmentTable where
  process_id : Nat
  segments : List (Nat × Segment)
deriving DecidableEq

/-- `SegmentTable.add_segment`. -/
def SegmentTable.add_segment (st : SegmentTable) (segment_id : Nat) (name : String)
    (base limit : Nat) : SegmentTable :=
  { st with segments := setA st.segments segment_id (Segment.init segment_id name base limit) }

structure SegmentationEngine where
  segment_tables : List (Nat × SegmentTable)
  next_base_address : Nat
  access_attempts : Nat
  access_successes : Nat
  bounds_violations : Nat
deriving DecidableEq

/-- `SegmentationEngine.__init__`. -/
def SegmentationEngine.init : SegmentationEngine :=
  ⟨[], 0x1000, 0, 0, 0⟩

/-- `SegmentationEngine.create_process`. -/
def SegmentationEngine.create_process (e : SegmentationEngine) (process_id : Nat) :
    Bool × SegmentationEngine :=
  match lookupA e.segment_tables process_id with
  | some _ => (false, e)
  | none => (true, { e with segment_tables := e.segment_tables ++ [(process_id, ⟨process_id, []⟩)] })

/-- `SegmentationEngine.add_segment` (auto-assigns the base from the
cursor when `base` is `none`). -/
def SegmentationEngine.add_segment (e : SegmentationEngine) (process_id segment_id : Nat)
    (name : String) (size : Nat) (base : Option Nat) : Bool × SegmentationEngine :=
  match lookupA e.segment_tables process_id with
  | none => (false, e)
  | some st =>
    let bc : Nat × Nat :=
      match base with
      | none => (e.next_base_address, e.next_base_address + size + 0x100)
      | some b => (b, e.next_base_address)
    let st2 := st.add_segment segment_id name bc.1 size
    (true, { e with segment_tables := updateA e.segment_tables process_id st2,
                    next_base_address := bc.2 })

/-- Insertion into a base-sorted list (`sorted(segments, key=base)`;
strict `<` keeps the sort stable like Python's). -/
def insertByBase (s : Segment) : List Segment → List Segment
  | [] => [s]
  | t :: rest => if s.base < t.base then s :: t :: rest else t :: insertByBase s rest

def sortByBase : List Segment → List Segment
  | [] => []
  | s :: rest => insertByBase s (sortByBase rest)

/-- The gap-summing loop of `calculate_fragmentation` over the
base-sorted segment list. -/
def externalGaps : List Segment → Nat
  | a :: b :: rest =>
    (if a.base + a.limit < b.base then b.base - (a.base + a.limit) else 0)
      + externalGaps (b :: rest)
  | _ => 0

structure FragmentationResult where
  internal_bytes : ℚ
  external_bytes : ℚ
  internal_percent : ℚ
  external_percent : ℚ
deriving DecidableEq

/-- `SegmentationEngine.calculate_fragmentation` (float arithmetic
embedded as exact rationals; all quantities involved are small integers
and halves, which IEEE doubles also represent exactly). -/
def SegmentationEngine.calculate_fragmentation (e : SegmentationEngine) (process_id : Nat) :
    FragmentationResult :=
  match lookupA e.segment_tables process_id with
  | none => ⟨0, 0, 0, 0⟩
  | some st =>
    match st.segments with
    | [] => ⟨0, 0, 0, 0⟩
    | _ :: _ =>
      let segs := st.segments.map Prod.snd
      let ext : Nat := externalGaps (sortByBase segs)
      let total : Nat := (segs.map Segment.limit).sum
      let extPct : ℚ := if 0 < total then (ext : ℚ) / (total : ℚ) * 100 else 0
      ⟨0, (ext : ℚ), 0, extPct⟩

/-! ## Concrete runs used by witnesses and test-vector claims -/

/-- Feed an access sequence to a `FIFOReplacement` engine. -/
def fifoRun : FIFOReplacement → List Nat → FIFOReplacement
  | st, [] => st
  | st, a :: rest => fifoRun (st.access_page a).2 rest

/-- Feed an access sequence to an `LRUReplacement` engine. -/
def lruRun : LRUReplacement → List Nat → LRUReplacement
  | st, [] => st
  | st, a :: rest => lruRun (st.access_page a).2 rest

/-- A one-frame simulator whose single frame is allocated to process 1,
page 0 (the state reached by `init 1 16; create_process 1; allocate_page 1 0`). -/
def demoEntry : PageTableEntry :=
  (PageTableEntry.init 0).map_to_frame 0

def demoPT : PageTable := ⟨1, 16, [(0, demoEntry)]⟩

def demoSim : PagingSimulator :=
  ⟨⟨1, 16, [⟨0, 16, FrameStatus.ALLOCATED, some 1, some 0, 16⟩]⟩,
   [(1, demoPT)], ⟨AllocationStrategy.FIRST_FIT, 0⟩, 0, 0, [(1, ⟨0, 1⟩)]⟩

/-- Three free frames of sizes 4, 2, 2 (the best-fit tie-break vector). -/
def bfFrames : List Frame := [Frame.init 0 4, Frame.init 1 2, Frame.init 2 2]

/-- Two processes sharing page id 0 (the C3 counterexample input). -/
def vmmShared : VirtualMemoryManager :=
  (((VirtualMemoryManager.init 2 64 ReplacementAlgorithm.FIFO).load_process 1
      [0]).2.load_process 2 [0]).2

/-- Two processes with disjoint page sets, page 5 of process 2 resident
(the C3 witness input). -/
def vmmDisjoint : VirtualMemoryManager :=
  ((((VirtualMemoryManager.init 2 64 ReplacementAlgorithm.FIFO).load_process 1
      [0]).2.load_process 2 [5, 6]).2.access_page 2 5 false []).2

/-- A FIFO virtual-memory state whose insertion queue still heads a page
of a removed process while all slots are full: reached by
`load 1 [10]; load 2 [1,2,3]; access 10; access 1; remove 1; access 2`. -/
def vmm9f : VirtualMemoryManager :=
  (((((((VirtualMemoryManager.init 2 64 ReplacementAlgorithm.FIFO).load_process 1
      [10]).2.load_process 2 [1, 2, 3]).2.access_page 1 10 false []).2.access_page 2 1
      false []).2.remove_process 1).2.access_page 2 2 false []).2

/-- The same stale-head scenario for the LRU recency list. -/
def vmm9l : VirtualMemoryManager :=
  (((((((VirtualMemoryManager.init 2 64 ReplacementAlgorithm.LRU).load_process 1
      [10]).2.load_process 2 [1, 2, 3]).2.access_page 1 10 false []).2.access_page 2 1
      false []).2.remove_process 1).2.access_page 2 2 false []).2

/-- A segmentation engine with one empty process table. -/
def segCP : SegmentationEngine :=
  ((SegmentationEngine.init).create_process 1).2

/-- Segmentation run for claim C7: auto-placed CODE then auto-placed DATA,
both of size 0x1000. -/
def segDemo : SegmentationEngine :=
  ((((SegmentationEngine.init).create_process 1).2.add_segment 1 0 "CODE" 0x1000
      none).2.add_segment 1 1 "DATA" 0x1000 none).2

/-! ## Helper lemmas: association lists, list indexing, first-index scans -/

theorem lookupA_updateA {α : Type} (l : List (Nat × α)) (k k0 : Nat) (v : α) :
    lookupA (updateA l k v) k0 =
      if k0 = k then (lookupA l k).map (fun _ => v) else lookupA l k0 := by
  induction l with
  | nil => simp [lookupA, updateA]
  | cons hd tl ih =>
    obtain ⟨k1, v1⟩ := hd
    by_cases h1 : k = k1
    · by_cases h0 : k0 = k1 <;> simp [lookupA, updateA, h1, h0]
    · by_cases h0 : k0 = k1
      · have h2 : ¬ k0 = k := by omega
        have h3 : ¬ k1 = k := by omega
        simp [lookupA, updateA, h1, h0, h2, h3]
      · simp [lookupA, updateA, h1, h0, ih]

theorem keys_updateA {α : Type} (l : List (Nat × α)) (k : Nat) (v : α) :
    (updateA l k v).map Prod.fst = l.map Prod.fst := by
  induction l with
  | nil => simp [updateA]
  | cons hd tl ih =>
    obtain ⟨k1, v1⟩ := hd
    by_cases h1 : k = k1 <;> simp [updateA, h1, ih]

theorem lookupA_append_of_some {α : Type} {l : List (Nat × α)} {k0 : Nat} {u : α}
    (l2 : List (Nat × α)) (h : lookupA l k0 = some u) : lookupA (l ++ l2) k0 = some u := by
  induction l with
  | nil => simp [lookupA] at h
  | cons hd tl ih =>
    obtain ⟨k1, v1⟩ := hd
    by_cases h0 : k0 = k1 <;> simp_all [lookupA]

theorem lookupA_append_of_none {α : Type} {l : List (Nat × α)} {k0 : Nat}
    (l2 : List (Nat × α)) (h : lookupA l k0 = none) :
    lookupA (l ++ l2) k0 = lookupA l2 k0 := by
  induction l with
  | nil => simp [lookupA]
  | cons hd tl ih =>
    obtain ⟨k1, v1⟩ := hd
    by_cases h0 : k0 = k1 <;> simp_all [lookupA]

theorem lookupA_eraseA_ne {α : Type} (l : List (Nat × α)) {k k0 : Nat} (h : k0 ≠ k) :
    lookupA (eraseA l k) k0 = lookupA l k0 := by
  induction l with
  | nil => simp [eraseA]
  | cons hd tl ih =>
    obtain ⟨k1, v1⟩ := hd
    by_cases h1 : k = k1
    · have : ¬ k0 = k1 := by omega
      simp [eraseA, lookupA, h1, this]
    · by_cases h0 : k0 = k1 <;> simp [eraseA, lookupA, h1, h0, ih]

theorem lookupA_none_iff {α : Type} (l : List (Nat × α)) (k : Nat) :
    lookupA l k = none ↔ k ∉ l.map Prod.fst := by
  induction l with
  | nil => simp [lookupA]
  | cons hd tl ih =>
    obtain ⟨k1, v1⟩ := hd
    by_cases h0 : k = k1 <;> simp [lookupA, h0, ih]

theorem lookupA_eraseA_self {α : Type} (l : List (Nat × α)) (k : Nat)
    (h : (l.map Prod.fst).Nodup) : lookupA (eraseA l k) k = none := by
  induction l with
  | nil => simp [eraseA, lookupA]
  | cons hd tl ih =>
    obtain ⟨k1, v1⟩ := hd
    simp only [List.map_cons, List.nodup_cons] at h
    by_cases h1 : k = k1
    · subst h1
      simp only [eraseA, if_pos rfl]
      exact (lookupA_none_iff tl k).2 h.1
    · simp [eraseA, lookupA, h1, ih h.2]

theorem keys_eraseA_sublist {α : Type} (l : List (Nat × α)) (k : Nat) :
    ((eraseA l k).map Prod.fst).Sublist (l.map Prod.fst) := by
  induction l with
  | nil => simp [eraseA]
  | cons hd tl ih =>
    obtain ⟨k1, v1⟩ := hd
    by_cases h1 : k = k1
    · simpa [eraseA, h1] using (List.sublist_cons_self k1 (tl.map Prod.fst))
    · simpa [eraseA, h1] using ih.cons₂ k1

theorem lookupA_mem {α : Type} {l : List (Nat × α)} {k : Nat} {v : α}
    (h : lookupA l k = some v) : (k, v) ∈ l := by
  induction l with
  | nil => simp [lookupA] at h
  | cons hd tl ih =>
    obtain ⟨k1, v1⟩ := hd
    by_cases h0 : k = k1
    · simp [lookupA, h0] at h
      simp [h0, h]
    · simp only [lookupA, if_neg h0] at h
      exact List.mem_cons_of_mem _ (ih h)

theorem mem_lookupA {α : Type} {l : List (Nat × α)} {k : Nat} {v : α}
    (hmem : (k, v) ∈ l) (hnd : (l.map Prod.fst).Nodup) : lookupA l k = some v := by
  induction l with
  | nil => simp at hmem
  | cons hd tl ih =>
    obtain ⟨k1, v1⟩ := hd
    simp only [List.map_cons, List.nodup_cons] at hnd
    rcases List.mem_cons.1 hmem with h | h
    · have h2 : k = k1 ∧ v = v1 := by simpa using h
      obtain ⟨rfl, rfl⟩ := h2
      simp [lookupA]
    · have hk : k ≠ k1 := by
        intro hk
        subst hk
        exact hnd.1 (List.mem_map.2 ⟨(k, v), h, rfl⟩)
      simp [lookupA, hk, ih h hnd.2]

theorem updateA_same {α : Type} {l : List (Nat × α)} {k : Nat} {v : α}
    (h : lookupA l k = some v) : updateA l k v = l := by
  induction l with
  | nil => simp [lookupA] at h
  | cons hd tl ih =>
    obtain ⟨k1, v1⟩ := hd
    by_cases h0 : k = k1
    · simp [lookupA, h0] at h
      simp [updateA, h0, h]
    · simp only [lookupA, if_neg h0] at h
      simp [updateA, h0, ih h]

theorem list_get?_set_ne {α : Type} (l : List α) {i j : Nat} (a : α) (h : i ≠ j) :
    (l.set i a).get? j = l.get? j := by
  simp [List.get?_eq_getElem?, List.getElem?_set_ne h]

theorem list_get?_set_self {α : Type} (l : List α) {i : Nat} (a : α) (h : i < l.length) :
    (l.set i a).get? i = some a := by
  simp [List.get?_eq_getElem?, List.getElem?_set_self, h]

theorem firstIdx_get {α : Type} [DecidableEq α] {x : α} {l : List α} {i : Nat}
    (h : firstIdx x l = some i) : l.get? i = some x := by
  induction l generalizing i with
  | nil => simp [firstIdx] at h
  | cons a rest ih =>
    by_cases ha : a = x
    · simp [firstIdx, ha] at h
      subst h
      simp [ha]
    · simp only [firstIdx, if_neg ha, Option.map_eq_some'] at h
      obtain ⟨j, hj, rfl⟩ := h
      simpa using ih hj

theorem firstIdx_none_iff {α : Type} [DecidableEq α] (x : α) (l : List α) :
    firstIdx x l = none ↔ x ∉ l := by
  induction l with
  | nil => simp [firstIdx]
  | cons a rest ih =>
    by_cases ha : a = x
    · simp [firstIdx, ha]
    · simp only [firstIdx, if_neg ha, Option.map_eq_none', ih, List.mem_cons]
      constructor
      · intro h hc
        rcases hc with hc | hc
        · exact ha hc.symm
        · exact h hc
      · intro h hc
        exact h (Or.inr hc)

theorem firstIdx_earlier {α : Type} [DecidableEq α] {x : α} {l : List α} {i : Nat}
    (h : firstIdx x l = some i) : ∀ j, j < i → l.get? j ≠ some x := by
  induction l generalizing i with
  | nil => simp [firstIdx] at h
  | cons a rest ih =>
    by_cases ha : a = x
    · simp [firstIdx, ha] at h
      omega
    · simp only [firstIdx, if_neg ha, Option.map_eq_some'] at h
      obtain ⟨j0, hj0, rfl⟩ := h
      intro j hj
      cases j with
      | zero => simpa using ha
      | succ j =>
        simpa using ih hj0 j (by omega)

theorem lookupA_setA_self {α : Type} (l : List (Nat × α)) (k : Nat) (v : α) :
    lookupA (setA l k v) k = some v := by
  unfold setA
  cases h : lookupA l k with
  | some u => simp [lookupA_updateA, h]
  | none =>
    rw [lookupA_append_of_none _ h]
    simp [lookupA]

/-! ## Claim C2: FIFO / LRU divergence on the sequence 1,2,3,1,2,4,5,1 -/

/-- C2: with 3 frames and access sequence 1,2,3,1,2,4,5,1, both FIFO and
LRU engines finish with exactly 6 page faults and 2 page hits; the fault
for page 4 evicts page 1 under FIFO but page 3 under LRU; and the final
slot contents are [4,5,1] for FIFO and [5,1,4] for LRU. -/
theorem fifo_lru_divergence_on_sequence :
    (fifoRun (FIFOReplacement.init 3) [1, 2, 3, 1, 2, 4, 5, 1]).page_faults = 6 ∧
    (fifoRun (FIFOReplacement.init 3) [1, 2, 3, 1, 2, 4, 5, 1]).page_hits = 2 ∧
    (fifoRun (FIFOReplacement.init 3) [1, 2, 3, 1, 2, 4, 5, 1]).frames
        = [some 4, some 5, some 1] ∧
    ((fifoRun (FIFOReplacement.init 3) [1, 2, 3, 1, 2]).access_page 4).1.page_fault = true ∧
    ((fifoRun (FIFOReplacement.init 3) [1, 2, 3, 1, 2]).access_page 4).1.replaced_page
        = some 1 ∧
    (lruRun (LRUReplacement.init 3) [1, 2, 3, 1, 2, 4, 5, 1]).page_faults = 6 ∧
    (lruRun (LRUReplacement.init 3) [1, 2, 3, 1, 2, 4, 5, 1]).page_hits = 2 ∧
    (lruRun (LRUReplacement.init 3) [1, 2, 3, 1, 2, 4, 5, 1]).frames
        = [some 5, some 1, some 4] ∧
    ((lruRun (LRUReplacement.init 3) [1, 2, 3, 1, 2]).access_page 4).1.page_fault = true ∧
    ((lruRun (LRUReplacement.init 3) [1, 2, 3, 1, 2]).access_page 4).1.replaced_page
        = some 3 := by
  decide

/-! ## Claim C7: segmentation auto-placement cursor and fragmentation -/

/-- C7: the auto-assignment cursor starts at 0x1000 and an auto-assigned
segment of size sz is placed at the cursor and advances it by sz + 0x100;
for CODE (base 0x1000, limit 0x1000) followed by auto-placed DATA (limit
0x1000), DATA.base = 0x2100, external fragmentation is 0x100 bytes and
the external fragmentation percentage is exactly 3.125. -/
theorem segmentation_cursor_and_fragmentation :
    SegmentationEngine.init.next_base_address = 0x1000 ∧
    (∀ (e : SegmentationEngine) (pid sid : Nat) (nm : String) (sz : Nat) (st : SegmentTable),
      lookupA e.segment_tables pid = some st →
      (e.add_segment pid sid nm sz none).2.next_base_address
          = e.next_base_address + sz + 0x100 ∧
      ((lookupA (e.add_segment pid sid nm sz none).2.segment_tables pid).bind
        (fun st2 => lookupA st2.segments sid)).map Segment.base = some e.next_base_address) ∧
    ((lookupA segDemo.segment_tables 1).bind
      (fun st => lookupA st.segments 1)).map Segment.base = some 0x2100 ∧
    (segDemo.calculate_fragmentation 1).external_bytes = 0x100 ∧
    (segDemo.calculate_fragmentation 1).external_percent = 3.125 := by
  refine ⟨rfl, ?_, by decide, ?_, ?_⟩
  · intro e pid sid nm sz st h
    constructor
    · simp [SegmentationEngine.add_segment, h]
    · simp [SegmentationEngine.add_segment, h, lookupA_updateA, lookupA_setA_self,
            SegmentTable.add_segment, Segment.init]
  · norm_num [segDemo, SegmentationEngine.calculate_fragmentation, SegmentationEngine.init,
      SegmentationEngine.create_process, SegmentationEngine.add_segment,
      SegmentTable.add_segment, Segment.init, lookupA, setA, updateA, sortByBase,
      insertByBase, externalGaps]
  · norm_num [segDemo, SegmentationEngine.calculate_fragmentation, SegmentationEngine.init,
      SegmentationEngine.create_process, SegmentationEngine.add_segment,
      SegmentTable.add_segment, Segment.init, lookupA, setA, updateA, sortByBase,
      insertByBase, externalGaps]

/-- Witness for C7: the auto-placement conjunct applied to a concrete
engine holding one empty table. -/
theorem segmentation_cursor_witness :
    lookupA segCP.segment_tables 1 = some ⟨1, []⟩ ∧
    (segCP.add_segment 1 0 "CODE" 0x1000 none).2.next_base_address
        = segCP.next_base_address + 0x1000 + 0x100 ∧
    ((lookupA (segCP.add_segment 1 0 "CODE" 0x1000 none).2.segment_tables 1).bind
      (fun st2 => lookupA st2.segments 0)).map Segment.base = some segCP.next_base_address :=
  ⟨by decide,
   (segmentation_cursor_and_fragmentation.2.1 segCP 1 0 "CODE" 0x1000 ⟨1, []⟩ (by decide)).1,
   (segmentation_cursor_and_fragmentation.2.1 segCP 1 0 "CODE" 0x1000 ⟨1, []⟩ (by decide)).2⟩

/-! ## Claim C8: hard errors of VirtualMemoryManager.access_page -/

/-- C8: access_page on an unknown process, or on a page not registered to
the process, returns success = false with page_fault = false and leaves
the whole manager state (replacement engine, backing store, swap
counters) unchanged. -/
theorem vm_access_page_hard_errors (m : VirtualMemoryManager) (pid pg : Nat) (w : Bool)
    (fut : List Nat) :
    (lookupA m.process_pages pid = none →
      (m.access_page pid pg w fut).1.success = false ∧
      (m.access_page pid pg w fut).1.page_fault = false ∧
      (m.access_page pid pg w fut).2 = m) ∧
    (∀ pages, lookupA m.process_pages pid = some pages → pg ∉ pages →
      (m.access_page pid pg w fut).1.success = false ∧
      (m.access_page pid pg w fut).1.page_fault = false ∧
      (m.access_page pid pg w fut).2 = m) := by
  constructor
  · intro h
    simp [VirtualMemoryManager.access_page, h]
  · intro pages h hpg
    simp [VirtualMemoryManager.access_page, h, hpg]

/-- Witness for C8: an unknown process id (7) and an unregistered page
(0 for process 2) on a concrete manager. -/
theorem vm_access_page_hard_errors_witness :
    (lookupA vmmDisjoint.process_pages 7 = none ∧
      (vmmDisjoint.access_page 7 0 false []).1.success = false ∧
      (vmmDisjoint.access_page 7 0 false []).1.page_fault = false ∧
      (vmmDisjoint.access_page 7 0 false []).2 = vmmDisjoint) ∧
    (lookupA vmmDisjoint.process_pages 2 = some [5, 6] ∧ (0 : Nat) ∉ ([5, 6] : List Nat) ∧
      (vmmDisjoint.access_page 2 0 false []).1.success = false ∧
      (vmmDisjoint.access_page 2 0 false []).1.page_fault = false ∧
      (vmmDisjoint.access_page 2 0 false []).2 = vmmDisjoint) :=
  ⟨⟨by decide, (vm_access_page_hard_errors vmmDisjoint 7 0 false []).1 (by decide)⟩,
   ⟨by decide, by decide,
    (vm_access_page_hard_errors vmmDisjoint 2 0 false []).2 [5, 6] (by decide) (by decide)⟩⟩

/-! ## Claim C3: remove_process releases exactly the owned pages -/

theorem list_get?_map {α β : Type} (l : List α) (f : α → β) (i : Nat) :
    (l.map f).get? i = (l.get? i).map f := by
  simp [List.get?_eq_getElem?]

theorem frames_setFrames (r : Replacement) (fr : List (Option Nat)) :
    (r.setFrames fr).frames = fr := by
  cases r <;> rfl

theorem removeLoop_process_pages (l : List Nat) : ∀ (m : VirtualMemoryManager),
    (removeLoop m l).process_pages = m.process_pages := by
  induction l with
  | nil => intro m; rfl
  | cons pg rest ih =>
    intro m
    simp only [removeLoop]
    split <;> exact ih _

theorem removeLoop_backing (l : List Nat) : ∀ (m : VirtualMemoryManager),
    (m.backing_store.pages.map Prod.fst).Nodup → ∀ q,
    (removeLoop m l).backing_store.has_page q
      = if q ∈ l then false else m.backing_store.has_page q := by
  induction l with
  | nil =>
    intro m hnd q
    simp [removeLoop]
  | cons pg rest ih =>
    intro m hnd q
    have hnd2 : ((eraseA m.backing_store.pages pg).map Prod.fst).Nodup :=
      (keys_eraseA_sublist m.backing_store.pages pg).nodup hnd
    have hstep : ∀ q0, (BackingStore.mk (eraseA m.backing_store.pages pg)).has_page q0
        = if q0 = pg then false else m.backing_store.has_page q0 := by
      intro q0
      by_cases hq : q0 = pg
      · subst hq
        simp [BackingStore.has_page, lookupA_eraseA_self _ _ hnd]
      · simp [BackingStore.has_page, lookupA_eraseA_ne _ hq, hq]
    simp only [removeLoop]
    split
    · rw [ih _ hnd2 q]
      by_cases hq1 : q ∈ rest
      · simp [hq1]
      · have := hstep q
        simp only [BackingStore.remove_page] at *
        by_cases hq2 : q = pg <;> simp_all [List.mem_cons]
    · rw [ih _ hnd2 q]
      by_cases hq1 : q ∈ rest
      · simp [hq1]
      · have := hstep q
        simp only [BackingStore.remove_page] at *
        by_cases hq2 : q = pg <;> simp_all [List.mem_cons]

theorem removeLoop_frames (l : List Nat) : ∀ (m : VirtualMemoryManager) (i : Nat),
    (removeLoop m l).replacement.frames.get? i
      = (m.replacement.frames.get? i).map
          (fun v => if v ∈ l.map (fun p => (some p : Option Nat)) then none else v) := by
  induction l with
  | nil =>
    intro m i
    simp [removeLoop, Option.map_id']
  | cons pg rest ih =>
    intro m i
    simp only [removeLoop]
    split
    · rw [ih]
      rw [frames_setFrames, list_get?_map]
      cases hv : m.replacement.frames.get? i with
      | none => rfl
      | some v =>
        by_cases h1 : v = some pg
        · simp [h1]
        · by_cases h2 : v ∈ rest.map (fun p => (some p : Option Nat)) <;>
            simp [h1, h2, List.mem_cons]
    · next hload =>
      rw [ih]
      cases hv : m.replacement.frames.get? i with
      | none => rfl
      | some v =>
        have hvmem : v ∈ m.replacement.frames := List.get?_mem hv
        have h1 : v ≠ some pg := by
          intro hc
          subst hc
          exact hload (by simpa [Replacement.is_page_loaded] using hvmem)
        by_cases h2 : v ∈ rest.map (fun p => (some p : Option Nat)) <;>
          simp [h1, h2, List.mem_cons]

/-- C3 (amended): when the two processes register disjoint page-id sets,
remove_process(A) releases exactly A's pages: B stays registered, every
page not in A's set keeps its backing blob and its slot, A's pages lose
their blobs and their slots are cleared.  (The disjointness hypothesis is
forced by the counterexample: page ids are one global namespace.) -/
theorem vm_remove_process_releases_exactly_own_pages
    (m : VirtualMemoryManager) (pidA pidB : Nat) (pagesA pagesB : List Nat)
    (hA : lookupA m.process_pages pidA = some pagesA)
    (hB : lookupA m.process_pages pidB = some pagesB)
    (hne : pidB ≠ pidA)
    (hdisj : ∀ p, p ∈ pagesB → p ∉ pagesA)
    (hnd : (m.backing_store.pages.map Prod.fst).Nodup) :
    (m.remove_process pidA).1 = true ∧
    lookupA (m.remove_process pidA).2.process_pages pidB = some pagesB ∧
    (∀ q, q ∉ pagesA →
      (m.remove_process pidA).2.backing_store.has_page q = m.backing_store.has_page q) ∧
    (∀ q, q ∈ pagesA → (m.remove_process pidA).2.backing_store.has_page q = false) ∧
    (∀ p i, p ∈ pagesB → m.replacement.frames.get? i = some (some p) →
      (m.remove_process pidA).2.replacement.frames.get? i = some (some p)) ∧
    (∀ i v, m.replacement.frames.get? i = some v →
      v ∉ pagesA.map (fun p => (some p : Option Nat)) →
      (m.remove_process pidA).2.replacement.frames.get? i = some v) ∧
    (∀ i p, p ∈ pagesA → m.replacement.frames.get? i = some (some p) →
      (m.remove_process pidA).2.replacement.frames.get? i = some none) := by
  have hres : m.remove_process pidA
      = (true, { removeLoop m pagesA with
                 process_pages := eraseA (removeLoop m pagesA).process_pages pidA }) := by
    simp [VirtualMemoryManager.remove_process, hA]
  rw [hres]
  refine ⟨rfl, ?_, ?_, ?_, ?_, ?_, ?_⟩
  · show lookupA (eraseA (removeLoop m pagesA).process_pages pidA) pidB = some pagesB
    rw [lookupA_eraseA_ne _ hne, removeLoop_process_pages, hB]
  · intro q hq
    have := removeLoop_backing pagesA m hnd q
    simpa [hq] using this
  · intro q hq
    have := removeLoop_backing pagesA m hnd q
    simpa [hq] using this
  · intro p i hp hslot
    rw [removeLoop_frames pagesA m i, hslot]
    have hnp : p ∉ pagesA := hdisj p hp
    have hnm : (some p : Option Nat) ∉ pagesA.map (fun p0 => (some p0 : Option Nat)) := by
      intro hc
      obtain ⟨p0, hp0, he⟩ := List.mem_map.1 hc
      have heq : p0 = p := by simpa using he
      exact hnp (heq ▸ hp0)
    simp only [Option.map_some']
    rw [if_neg hnm]
  · intro i v hslot hnm
    rw [removeLoop_frames pagesA m i, hslot]
    simp only [Option.map_some']
    rw [if_neg hnm]
  · intro i p hp hslot
    rw [removeLoop_frames pagesA m i, hslot]
    simp only [Option.map_some']
    rw [if_pos (List.mem_map.2 ⟨p, hp, rfl⟩)]

/-- Counterexample to C3 as stated: both processes register page id 0, so
after remove_process(1) the blob of page 0 — still registered to process
2 — is gone from the backing store. -/
theorem vm_remove_process_shared_page_counterexample :
    (vmmShared.remove_process 1).1 = true ∧
    lookupA (vmmShared.remove_process 1).2.process_pages 2 = some [0] ∧
    vmmShared.backing_store.has_page 0 = true ∧
    (vmmShared.remove_process 1).2.backing_store.has_page 0 = false := by
  decide

/-- Witness for the amended C3 on disjoint page sets {0} and {5,6} with
page 5 resident in slot 0. -/
theorem vm_remove_process_releases_witness :
    lookupA vmmDisjoint.process_pages 1 = some [0] ∧
    lookupA vmmDisjoint.process_pages 2 = some [5, 6] ∧
    lookupA (vmmDisjoint.remove_process 1).2.process_pages 2 = some [5, 6] ∧
    (vmmDisjoint.remove_process 1).2.backing_store.has_page 5
        = vmmDisjoint.backing_store.has_page 5 ∧
    (vmmDisjoint.remove_process 1).2.replacement.frames.get? 0 = some (some 5) ∧
    (vmmDisjoint.remove_process 1).2.backing_store.has_page 0 = false :=
  ⟨by decide, by decide,
   (vm_remove_process_releases_exactly_own_pages vmmDisjoint 1 2 [0] [5, 6]
     (by decide) (by decide) (by decide) (by decide) (by decide)).2.1,
   (vm_remove_process_releases_exactly_own_pages vmmDisjoint 1 2 [0] [5, 6]
     (by decide) (by decide) (by decide) (by decide) (by decide)).2.2.1 5 (by decide),
   (vm_remove_process_releases_exactly_own_pages vmmDisjoint 1 2 [0] [5, 6]
     (by decide) (by decide) (by decide) (by decide) (by decide)).2.2.2.2.1 5 0
     (by decide) (by decide),
   (vm_remove_process_releases_exactly_own_pages vmmDisjoint 1 2 [0] [5, 6]
     (by decide) (by decide) (by decide) (by decide) (by decide)).2.2.2.1 0 (by decide)⟩

/-! ## Claim C9: stale FIFO/LRU order entries are skipped defensively -/

/-- C9: if the popped head of the FIFO queue (resp. LRU recency list) is a
page occupying no slot — the situation remove_process leaves behind — an
eviction-triggering access_page completes and returns a result record:
success with a fault, no replaced page, no frame index, and the slot
array unchanged. -/
theorem vm_stale_order_entry_defensive
    (m : VirtualMemoryManager) (pid pg : Nat) (pages : List Nat) (fut : List Nat) :
    (∀ (st : FIFOReplacement) (h : Nat) (t : List Nat),
      m.replacement = Replacement.fifo st →
      st.queue = h :: t →
      (some h) ∉ st.frames →
      (none : Option Nat) ∉ st.frames →
      (some pg) ∉ st.frames →
      lookupA m.process_pages pid = some pages →
      pg ∈ pages →
      m.backing_store.has_page pg = true →
      (m.access_page pid pg false fut).1.success = true ∧
      (m.access_page pid pg false fut).1.page_fault = true ∧
      (m.access_page pid pg false fut).1.replaced_page = none ∧
      (m.access_page pid pg false fut).1.frame_index = none ∧
      (m.access_page pid pg false fut).2.replacement.frames = st.frames) ∧
    (∀ (st : LRUReplacement) (h : Nat) (t : List Nat),
      m.replacement = Replacement.lru st →
      st.access_order = h :: t →
      (some h) ∉ st.frames →
      (none : Option Nat) ∉ st.frames →
      (some pg) ∉ st.frames →
      lookupA m.process_pages pid = some pages →
      pg ∈ pages →
      m.backing_store.has_page pg = true →
      (m.access_page pid pg false fut).1.success = true ∧
      (m.access_page pid pg false fut).1.page_fault = true ∧
      (m.access_page pid pg false fut).1.replaced_page = none ∧
      (m.access_page pid pg false fut).1.frame_index = none ∧
      (m.access_page pid pg false fut).2.replacement.frames = st.frames) := by
  constructor
  · intro st h t hrep hq hsh hsn hspg hpp hmem hbs
    have hload : m.replacement.is_page_loaded pg = false := by
      simp [Replacement.is_page_loaded, hrep, hspg, Replacement.frames]
    have hacc : m.replacement.access_page pg fut
        = (⟨pg, true, none, none, ReplacementAlgorithm.FIFO⟩,
           Replacement.fifo { st with page_faults := st.page_faults + 1, queue := t }) := by
      simp [Replacement.access_page, hrep, FIFOReplacement.access_page, hspg,
            (firstIdx_none_iff _ _).2 hsn, hq, (firstIdx_none_iff _ _).2 hsh]
    simp [VirtualMemoryManager.access_page, hpp, hmem, hload, hbs, hacc,
          Replacement.frames]
  · intro st h t hrep hq hsh hsn hspg hpp hmem hbs
    have hload : m.replacement.is_page_loaded pg = false := by
      simp [Replacement.is_page_loaded, hrep, hspg, Replacement.frames]
    have hacc : m.replacement.access_page pg fut
        = (⟨pg, true, none, none, ReplacementAlgorithm.LRU⟩,
           Replacement.lru { st with page_faults := st.page_faults + 1, access_order := t }) := by
      simp [Replacement.access_page, hrep, LRUReplacement.access_page, hspg,
            (firstIdx_none_iff _ _).2 hsn, hq, (firstIdx_none_iff _ _).2 hsh]
    simp [VirtualMemoryManager.access_page, hpp, hmem, hload, hbs, hacc,
          Replacement.frames]

/-- Witness for C9: both scenarios reached by actually removing process 1
and refilling the freed slot, so the stale head 10 is popped on the next
eviction scan. -/
theorem vm_stale_order_entry_witness :
    ((vmm9f.access_page 2 3 false []).1.success = true ∧
      (vmm9f.access_page 2 3 false []).1.page_fault = true ∧
      (vmm9f.access_page 2 3 false []).1.replaced_page = none ∧
      (vmm9f.access_page 2 3 false []).1.frame_index = none ∧
      (vmm9f.access_page 2 3 false []).2.replacement.frames = [some 2, some 1]) ∧
    ((vmm9l.access_page 2 3 false []).1.success = true ∧
      (vmm9l.access_page 2 3 false []).1.page_fault = true ∧
      (vmm9l.access_page 2 3 false []).1.replaced_page = none ∧
      (vmm9l.access_page 2 3 false []).1.frame_index = none ∧
      (vmm9l.access_page 2 3 false []).2.replacement.frames = [some 2, some 1]) :=
  ⟨(vm_stale_order_entry_defensive vmm9f 2 3 [1, 2, 3] []).1
      ⟨2, [some 2, some 1], 3, 0, [10, 1, 2]⟩ 10 [1, 2]
      (by decide) (by decide) (by decide) (by decide) (by decide) (by decide)
      (by decide) (by decide),
   (vm_stale_order_entry_defensive vmm9l 2 3 [1, 2, 3] []).2
      ⟨2, [some 2, some 1], 3, 0, [10, 1, 2]⟩ 10 [1, 2]
      (by decide) (by decide) (by decide) (by decide) (by decide) (by decide)
      (by decide) (by decide)⟩

/-! ## Claim C4: best-fit minimizes waste with earliest-scanned tie-break -/

theorem bestFitScan_cons_cand_none (size : Nat) (f : Frame) (rest : List Frame) (i : Nat)
    (hc : f.status = FrameStatus.FREE ∧ size ≤ f.size) :
    bestFitScan size (f :: rest) i none
      = bestFitScan size rest (i + 1) (some (i, f.size - size)) := by
  simp [bestFitScan, hc]

theorem bestFitScan_cons_cand_lt (size : Nat) (f : Frame) (rest : List Frame) (i bi0 aw0 : Nat)
    (hc : f.status = FrameStatus.FREE ∧ size ≤ f.size) (hw : f.size - size < aw0) :
    bestFitScan size (f :: rest) i (some (bi0, aw0))
      = bestFitScan size rest (i + 1) (some (i, f.size - size)) := by
  simp [bestFitScan, hc, hw]

theorem bestFitScan_cons_cand_ge (size : Nat) (f : Frame) (rest : List Frame) (i bi0 aw0 : Nat)
    (hc : f.status = FrameStatus.FREE ∧ size ≤ f.size) (hw : ¬ f.size - size < aw0) :
    bestFitScan size (f :: rest) i (some (bi0, aw0))
      = bestFitScan size rest (i + 1) (some (bi0, aw0)) := by
  simp [bestFitScan, hc, hw]

theorem bestFitScan_cons_not (size : Nat) (f : Frame) (rest : List Frame) (i : Nat)
    (acc : Option (Nat × Nat)) (hc : ¬ (f.status = FrameStatus.FREE ∧ size ≤ f.size)) :
    bestFitScan size (f :: rest) i acc = bestFitScan size rest (i + 1) acc := by
  simp [bestFitScan, hc]

theorem bestFitScan_spec (size : Nat) : ∀ (l : List Frame) (i : Nat) (acc : Option (Nat × Nat))
    (bi bw : Nat), bestFitScan size l i acc = some (bi, bw) →
    (∀ j f, l.get? j = some f → f.status = FrameStatus.FREE → size ≤ f.size →
        bw ≤ f.size - size) ∧
    (acc = some (bi, bw) ∨
      ∃ j f, l.get? j = some f ∧ bi = i + j ∧ f.status = FrameStatus.FREE ∧ size ≤ f.size ∧
        bw = f.size - size ∧
        (∀ bi0 aw0, acc = some (bi0, aw0) → bw < aw0) ∧
        (∀ j0 f0, j0 < j → l.get? j0 = some f0 → f0.status = FrameStatus.FREE →
          size ≤ f0.size → bw < f0.size - size)) := by
  intro l
  induction l with
  | nil =>
    intro i acc bi bw h
    simp only [bestFitScan] at h
    refine ⟨?_, Or.inl h⟩
    intro j f hf
    simp at hf
  | cons f rest ih =>
    intro i acc bi bw h
    by_cases hc : f.status = FrameStatus.FREE ∧ size ≤ f.size
    · cases hacc : acc with
      | none =>
        rw [hacc] at h
        rw [bestFitScan_cons_cand_none _ _ _ _ hc] at h
        obtain ⟨hmin, hdisj⟩ := ih _ _ _ _ h
        have hbww : bw ≤ f.size - size := by
          rcases hdisj with heq | ⟨j1, f1, hg1, hbi1, hfree1, hsz1, hbw1, haccC, hearly⟩
          · have : i = bi ∧ f.size - size = bw := by simpa using heq
            omega
          · exact le_of_lt (haccC i (f.size - size) rfl)
        constructor
        · intro j g hg hfree hsz
          cases j with
          | zero =>
            have hgf : f = g := by simpa using hg
            subst hgf
            exact hbww
          | succ j => exact hmin j g (by simpa using hg) hfree hsz
        · rcases hdisj with heq | ⟨j1, f1, hg1, hbi1, hfree1, hsz1, hbw1, haccC, hearly⟩
          · have hib : i = bi ∧ f.size - size = bw := by simpa using heq
            refine Or.inr ⟨0, f, by simp, by omega, hc.1, hc.2, by omega, ?_, ?_⟩
            · intro bi0 aw0 hcon
              simp at hcon
            · intro j0 f0 hj0 hf0
              omega
          · refine Or.inr ⟨j1 + 1, f1, by simpa using hg1, by omega, hfree1, hsz1, hbw1, ?_, ?_⟩
            · intro bi0 aw0 hcon
              simp at hcon
            · intro j0 f0 hj0 hf0 hfree0 hsz0
              cases j0 with
              | zero =>
                have hgf : f = f0 := by simpa using hf0
                subst hgf
                exact haccC i (f.size - size) rfl
              | succ j0 => exact hearly j0 f0 (by omega) (by simpa using hf0) hfree0 hsz0
      | some p =>
        obtain ⟨bi0, aw0⟩ := p
        by_cases hw : f.size - size < aw0
        · rw [hacc] at h
          rw [bestFitScan_cons_cand_lt _ _ _ _ _ _ hc hw] at h
          obtain ⟨hmin, hdisj⟩ := ih _ _ _ _ h
          have hbww : bw ≤ f.size - size := by
            rcases hdisj with heq | ⟨j1, f1, hg1, hbi1, hfree1, hsz1, hbw1, haccC, hearly⟩
            · have : i = bi ∧ f.size - size = bw := by simpa using heq
              omega
            · exact le_of_lt (haccC i (f.size - size) rfl)
          constructor
          · intro j g hg hfree hsz
            cases j with
            | zero =>
              have hgf : f = g := by simpa using hg
              subst hgf
              exact hbww
            | succ j => exact hmin j g (by simpa using hg) hfree hsz
          · rcases hdisj with heq | ⟨j1, f1, hg1, hbi1, hfree1, hsz1, hbw1, haccC, hearly⟩
            · have hib : i = bi ∧ f.size - size = bw := by simpa using heq
              refine Or.inr ⟨0, f, by simp, by omega, hc.1, hc.2, by omega, ?_, ?_⟩
              · intro bi1 aw1 hcon
                have : bi0 = bi1 ∧ aw0 = aw1 := by simpa using hcon
                omega
              · intro j0 f0 hj0 hf0
                omega
            · refine Or.inr ⟨j1 + 1, f1, by simpa using hg1, by omega, hfree1, hsz1, hbw1, ?_, ?_⟩
              · intro bi1 aw1 hcon
                have hb : bi0 = bi1 ∧ aw0 = aw1 := by simpa using hcon
                have : bw < f.size - size := haccC i (f.size - size) rfl
                omega
              · intro j0 f0 hj0 hf0 hfree0 hsz0
                cases j0 with
                | zero =>
                  have hgf : f = f0 := by simpa using hf0
                  subst hgf
                  exact haccC i (f.size - size) rfl
                | succ j0 => exact hearly j0 f0 (by omega) (by simpa using hf0) hfree0 hsz0
        · rw [hacc] at h
          rw [bestFitScan_cons_cand_ge _ _ _ _ _ _ hc hw] at h
          obtain ⟨hmin, hdisj⟩ := ih _ _ _ _ h
          have hbww : bw ≤ aw0 := by
            rcases hdisj with heq | ⟨j1, f1, hg1, hbi1, hfree1, hsz1, hbw1, haccC, hearly⟩
            · have : bi0 = bi ∧ aw0 = bw := by simpa using heq
              omega
            · exact le_of_lt (haccC bi0 aw0 rfl)
          constructor
          · intro j g hg hfree hsz
            cases j with
            | zero =>
              have hgf : f = g := by simpa using hg
              subst hgf
              omega
            | succ j => exact hmin j g (by simpa using hg) hfree hsz
          · rcases hdisj with heq | ⟨j1, f1, hg1, hbi1, hfree1, hsz1, hbw1, haccC, hearly⟩
            · exact Or.inl (by simpa using heq)
            · refine Or.inr ⟨j1 + 1, f1, by simpa using hg1, by omega, hfree1, hsz1, hbw1, ?_, ?_⟩
              · intro bi1 aw1 hcon
                have hb : bi0 = bi1 ∧ aw0 = aw1 := by simpa using hcon
                have : bw < aw0 := haccC bi0 aw0 rfl
                omega
              · intro j0 f0 hj0 hf0 hfree0 hsz0
                cases j0 with
                | zero =>
                  have hgf : f = f0 := by simpa using hf0
                  subst hgf
                  have : bw < aw0 := haccC bi0 aw0 rfl
                  omega
                | succ j0 => exact hearly j0 f0 (by omega) (by simpa using hf0) hfree0 hsz0
    · rw [bestFitScan_cons_not _ _ _ _ _ hc] at h
      obtain ⟨hmin, hdisj⟩ := ih _ _ _ _ h
      constructor
      · intro j g hg hfree hsz
        cases j with
        | zero =>
          have hgf : f = g := by simpa using hg
          subst hgf
          exact absurd ⟨hfree, hsz⟩ hc
        | succ j => exact hmin j g (by simpa using hg) hfree hsz
      · rcases hdisj with heq | ⟨j1, f1, hg1, hbi1, hfree1, hsz1, hbw1, haccC, hearly⟩
        · exact Or.inl heq
        · refine Or.inr ⟨j1 + 1, f1, by simpa using hg1, by omega, hfree1, hsz1, hbw1, haccC, ?_⟩
          intro j0 f0 hj0 hf0 hfree0 hsz0
          cases j0 with
          | zero =>
            have hgf : f = f0 := by simpa using hf0
            subst hgf
            exact absurd ⟨hfree0, hsz0⟩ hc
          | succ j0 => exact hearly j0 f0 (by omega) (by simpa using hf0) hfree0 hsz0

/-- C4: best-fit selects, among the FREE frames that fit, a frame with
minimal waste, and only strictly smaller waste replaces the running best,
so the earliest-scanned frame wins ties; on free frames of sizes [4,2,2]
a request of size 2 allocates frame index 1. -/
theorem best_fit_minimizes_waste (frames : List Frame) (pid pg sz fid : Nat)
    (frames2 : List Frame)
    (hids : frames.map Frame.frame_id = List.range frames.length)
    (h : bestFit frames pid pg sz = some (fid, frames2)) :
    (∃ f, frames.get? fid = some f ∧ f.status = FrameStatus.FREE ∧ sz ≤ f.size ∧
      (∀ j g, frames.get? j = some g → g.status = FrameStatus.FREE → sz ≤ g.size →
        f.size - sz ≤ g.size - sz) ∧
      (∀ j g, j < fid → frames.get? j = some g → g.status = FrameStatus.FREE → sz ≤ g.size →
        f.size - sz < g.size - sz)) ∧
    (bestFit bfFrames 9 0 2).map Prod.fst = some 1 := by
  have hids2 : ∀ i f, frames.get? i = some f → f.frame_id = i := by
    intro i f hf
    have hmap := congrArg (fun l => l.get? i) hids
    simp only [list_get?_map] at hmap
    rw [hf] at hmap
    by_cases hlen : i < frames.length
    · have hr : (List.range frames.length).get? i = some i := by
        simp [List.get?_eq_getElem?, hlen]
      rw [hr] at hmap
      exact Option.some.inj hmap
    · have hr : (List.range frames.length).get? i = none := by
        simp only [List.get?_eq_getElem?, List.getElem?_eq_none_iff]
        simp
        omega
      rw [hr] at hmap
      cases hmap
  refine ⟨?_, by decide⟩
  unfold bestFit at h
  cases hscan : bestFitScan sz frames 0 none with
  | none =>
    rw [hscan] at h
    simp at h
  | some p =>
    obtain ⟨bi, bw⟩ := p
    rw [hscan] at h
    dsimp only at h
    cases hget : frames.get? bi with
    | none =>
      rw [hget] at h
      simp at h
    | some f =>
      rw [hget] at h
      dsimp only at h
      cases halloc : f.allocate pid pg sz with
      | none =>
        rw [halloc] at h
        simp at h
      | some f2 =>
        rw [halloc] at h
        simp only [Option.some.injEq, Prod.mk.injEq] at h
        obtain ⟨hfid, hframes2⟩ := h
        have hfidbi : fid = bi := by
          rw [← hfid, hids2 bi f hget]
        obtain ⟨hmin, hdisj⟩ := bestFitScan_spec sz frames 0 none bi bw hscan
        rcases hdisj with heq | ⟨j, f3, hg3, hbi3, hfree3, hsz3, hbw3, _, hearly⟩
        · simp at heq
        · have hbij : bi = j := by omega
          have hf3 : f3 = f := by
            rw [hbij] at hget
            rw [hget] at hg3
            simpa using hg3.symm
          subst hf3
          refine ⟨f3, by rw [hfidbi]; exact hget, hfree3, hsz3, ?_, ?_⟩
          · intro j0 g hg hfree hsz0
            have := hmin j0 g hg hfree hsz0
            omega
          · intro j0 g hj0 hg hfree hsz0
            have := hearly j0 g (by omega) hg hfree hsz0
            omega

/-- Witness for C4: the [4,2,2] tie-break instance; frame index 1 is
selected over the equally-wasteful frame 2. -/
theorem best_fit_minimizes_waste_witness :
    bestFit bfFrames 9 0 2
        = some (1, [Frame.init 0 4, ⟨1, 2, FrameStatus.ALLOCATED, some 9, some 0, 2⟩,
                    Frame.init 2 2]) ∧
    (∃ f, bfFrames.get? 1 = some f ∧ f.status = FrameStatus.FREE ∧ 2 ≤ f.size ∧
      (∀ j g, bfFrames.get? j = some g → g.status = FrameStatus.FREE → 2 ≤ g.size →
        f.size - 2 ≤ g.size - 2) ∧
      (∀ j g, j < 1 → bfFrames.get? j = some g → g.status = FrameStatus.FREE → 2 ≤ g.size →
        f.size - 2 < g.size - 2)) :=
  ⟨by decide,
   (best_fit_minimizes_waste bfFrames 9 0 2 1
     [Frame.init 0 4, ⟨1, 2, FrameStatus.ALLOCATED, some 9, some 0, 2⟩, Frame.init 2 2]
     (by decide) (by decide)).1⟩

/-! ## Claim C1: the Optimal eviction rule -/

theorem optScan_break (future : List Nat) :
    ∀ (L : List (Option Nat)) (best : Option Nat) (maxd : Int) (i : Nat) (p : Nat),
    L.get? i = some (some p) → firstIdx p future = none →
    (∀ j q, j < i → L.get? j = some (some q) → (firstIdx q future).isSome) →
    optScan future L best maxd = some p := by
  intro L
  induction L with
  | nil =>
    intro best maxd i p hi
    simp at hi
  | cons a rest ih =>
    intro best maxd i p hi hno hearly
    cases a with
    | none =>
      cases i with
      | zero => simp at hi
      | succ i0 =>
        simp only [optScan]
        exact ih best maxd i0 p (by simpa using hi) hno
          (fun j q hj hq => hearly (j + 1) q (by omega) (by simpa using hq))
    | some q0 =>
      cases i with
      | zero =>
        have hq0 : q0 = p := by simpa using hi
        subst hq0
        simp [optScan, hno]
      | succ i0 =>
        have hq0some : (firstIdx q0 future).isSome :=
          hearly 0 q0 (by omega) (by simp)
        obtain ⟨d0, hd0⟩ := Option.isSome_iff_exists.1 hq0some
        by_cases hgt : (d0 : Int) > maxd
        · rw [show optScan future (some q0 :: rest) best maxd
              = optScan future rest (some q0) (d0 : Int) from by simp [optScan, hd0, hgt]]
          exact ih _ _ i0 p (by simpa using hi) hno
            (fun j q hj hq => hearly (j + 1) q (by omega) (by simpa using hq))
        · rw [show optScan future (some q0 :: rest) best maxd
              = optScan future rest best maxd from by simp [optScan, hd0, hgt]]
          exact ih _ _ i0 p (by simpa using hi) hno
            (fun j q hj hq => hearly (j + 1) q (by omega) (by simpa using hq))

theorem optScan_max (future : List Nat) :
    ∀ (L : List (Option Nat)) (best : Option Nat) (maxd : Int),
    (∀ j q, L.get? j = some (some q) → (firstIdx q future).isSome) →
    ((optScan future L best maxd = best ∧
        ∀ j q d, L.get? j = some (some q) → firstIdx q future = some d → (d : Int) ≤ maxd) ∨
      (∃ i p d, optScan future L best maxd = some p ∧ L.get? i = some (some p) ∧
        firstIdx p future = some d ∧ maxd < (d : Int) ∧
        (∀ j q e, L.get? j = some (some q) → firstIdx q future = some e → e ≤ d) ∧
        (∀ j q e, j < i → L.get? j = some (some q) → firstIdx q future = some e → e < d))) := by
  intro L
  induction L with
  | nil =>
    intro best maxd hall
    left
    refine ⟨rfl, ?_⟩
    intro j q d hj
    simp at hj
  | cons a rest ih =>
    intro best maxd hall
    cases a with
    | none =>
      have hall2 : ∀ j q, rest.get? j = some (some q) → (firstIdx q future).isSome :=
        fun j q hq => hall (j + 1) q (by simpa using hq)
      rw [show optScan future (none :: rest) best maxd
          = optScan future rest best maxd from by simp [optScan]]
      rcases ih best maxd hall2 with ⟨hres, hbnd⟩ | ⟨i, p, d, hres, hi, hd, hgt, hbnd, hearly⟩
      · left
        refine ⟨hres, ?_⟩
        intro j q d hj hq
        cases j with
        | zero => simp at hj
        | succ j => exact hbnd j q d (by simpa using hj) hq
      · right
        refine ⟨i + 1, p, d, hres, by simpa using hi, hd, hgt, ?_, ?_⟩
        · intro j q e hj hq
          cases j with
          | zero => simp at hj
          | succ j => exact hbnd j q e (by simpa using hj) hq
        · intro j q e hj hjq hq
          cases j with
          | zero => simp at hjq
          | succ j => exact hearly j q e (by omega) (by simpa using hjq) hq
    | some q0 =>
      have hq0some : (firstIdx q0 future).isSome := hall 0 q0 (by simp)
      obtain ⟨d0, hd0⟩ := Option.isSome_iff_exists.1 hq0some
      have hall2 : ∀ j q, rest.get? j = some (some q) → (firstIdx q future).isSome :=
        fun j q hq => hall (j + 1) q (by simpa using hq)
      by_cases hgt0 : (d0 : Int) > maxd
      · rw [show optScan future (some q0 :: rest) best maxd
            = optScan future rest (some q0) (d0 : Int) from by simp [optScan, hd0, hgt0]]
        rcases ih (some q0) (d0 : Int) hall2 with
          ⟨hres, hbnd⟩ | ⟨i, p, d, hres, hi, hd, hgt, hbnd, hearly⟩
        · right
          refine ⟨0, q0, d0, hres, by simp, hd0, by omega, ?_, ?_⟩
          · intro j q e hj hq
            cases j with
            | zero =>
              have : q0 = q := by simpa using hj
              subst this
              have : e = d0 := by rw [hq] at hd0; simpa using hd0
              omega
            | succ j =>
              have := hbnd j q e (by simpa using hj) hq
              omega
          · intro j q e hj hjq hq
            omega
        · right
          refine ⟨i + 1, p, d, hres, by simpa using hi, hd, by omega, ?_, ?_⟩
          · intro j q e hj hq
            cases j with
            | zero =>
              have : q0 = q := by simpa using hj
              subst this
              have : e = d0 := by rw [hq] at hd0; simpa using hd0
              omega
            | succ j => exact hbnd j q e (by simpa using hj) hq
          · intro j q e hj hjq hq
            cases j with
            | zero =>
              have : q0 = q := by simpa using hjq
              subst this
              have : e = d0 := by rw [hq] at hd0; simpa using hd0
              omega
            | succ j => exact hearly j q e (by omega) (by simpa using hjq) hq
      · rw [show optScan future (some q0 :: rest) best maxd
            = optScan future rest best maxd from by simp [optScan, hd0, hgt0]]
        rcases ih best maxd hall2 with
          ⟨hres, hbnd⟩ | ⟨i, p, d, hres, hi, hd, hgt, hbnd, hearly⟩
        · left
          refine ⟨hres, ?_⟩
          intro j q d hj hq
          cases j with
          | zero =>
            have : q0 = q := by simpa using hj
            subst this
            have : d = d0 := by rw [hq] at hd0; simpa using hd0
            omega
          | succ j => exact hbnd j q d (by simpa using hj) hq
        · right
          refine ⟨i + 1, p, d, hres, by simpa using hi, hd, hgt, ?_, ?_⟩
          · intro j q e hj hq
            cases j with
            | zero =>
              have : q0 = q := by simpa using hj
              subst this
              have : e = d0 := by rw [hq] at hd0; simpa using hd0
              omega
            | succ j => exact hbnd j q e (by simpa using hj) hq
          · intro j q e hj hjq hq
            cases j with
            | zero =>
              have : q0 = q := by simpa using hjq
              subst this
              have : e = d0 := by rw [hq] at hd0; simpa using hd0
              omega
            | succ j => exact hearly j q e (by omega) (by simpa using hjq) hq

/-- On a fault with no free slot, the eviction scan's choice is what
access_page reports as replaced_page. -/
theorem optimal_evict_replaced (st : OptimalReplacement) (pg : Nat) (future : List Nat)
    (hnotin : (some pg) ∉ st.frames) (hfull : (none : Option Nat) ∉ st.frames)
    (v : Nat) (hscan : optScan future st.frames none (-1) = some v)
    (hvmem : (some v) ∈ st.frames) :
    (st.access_page pg future).1.replaced_page = some v := by
  have h1 : firstIdx (none : Option Nat) st.frames = none := (firstIdx_none_iff _ _).2 hfull
  have h2 : firstIdx (some v) st.frames ≠ none := by
    intro hc
    exact ((firstIdx_none_iff _ _).1 hc) hvmem
  obtain ⟨iv, hiv⟩ := Option.ne_none_iff_exists'.1 h2
  simp [OptimalReplacement.access_page, hnotin, h1, hscan, hiv]

/-- C1: the Optimal engine's eviction rule on a full fault: (1) the first
resident page in slot order with no future occurrence is evicted, the
scan stopping there; (2) if every resident page recurs, the page with the
strictly largest next-occurrence index is evicted, ties going to the
earliest-scanned slot; (3) with empty future_references the page in slot
0 is evicted; and (4) with resident pages {1,2} and future [1,2,3], a
fault for page 3 evicts page 2. -/
theorem optimal_eviction_rule (st : OptimalReplacement) (pg : Nat) (future : List Nat)
    (hnotin : (some pg) ∉ st.frames)
    (hfull : (none : Option Nat) ∉ st.frames) :
    (∀ i p, st.frames.get? i = some (some p) → firstIdx p future = none →
      (∀ j q, j < i → st.frames.get? j = some (some q) → (firstIdx q future).isSome) →
      (st.access_page pg future).1.replaced_page = some p) ∧
    ((∀ q, q ∈ st.frames.filterMap id → (firstIdx q future).isSome) → st.frames ≠ [] →
      ∃ i p d, (st.access_page pg future).1.replaced_page = some p ∧
        st.frames.get? i = some (some p) ∧ firstIdx p future = some d ∧
        (∀ j q e, st.frames.get? j = some (some q) → firstIdx q future = some e → e ≤ d) ∧
        (∀ j q e, j < i → st.frames.get? j = some (some q) → firstIdx q future = some e →
          e < d)) ∧
    (future = [] → ∀ p, st.frames.get? 0 = some (some p) →
      (st.access_page pg future).1.replaced_page = some p) ∧
    ((OptimalReplacement.mk 2 [some 1, some 2] 0 0).access_page 3 [1, 2, 3]).1.replaced_page
        = some 2 := by
  refine ⟨?_, ?_, ?_, by decide⟩
  · intro i p hi hno hearly
    have hscan : optScan future st.frames none (-1) = some p :=
      optScan_break future st.frames none (-1) i p hi hno hearly
    exact optimal_evict_replaced st pg future hnotin hfull p hscan (List.get?_mem hi)
  · intro hall hne
    have hall2 : ∀ j q, st.frames.get? j = some (some q) → (firstIdx q future).isSome := by
      intro j q hq
      exact hall q (List.mem_filterMap.2 ⟨some q, List.get?_mem hq, rfl⟩)
    rcases optScan_max future st.frames none (-1) hall2 with
      ⟨hres, hbnd⟩ | ⟨i, p, d, hres, hi, hd, _, hbnd, hearly⟩
    · exfalso
      cases hfr : st.frames with
      | nil => exact hne hfr
      | cons a rest =>
        cases a with
        | none =>
          exact hfull (by rw [hfr]; exact List.mem_cons_self _ _)
        | some q0 =>
          have hq : st.frames.get? 0 = some (some q0) := by rw [hfr]; rfl
          obtain ⟨d0, hd0⟩ := Option.isSome_iff_exists.1 (hall2 0 q0 hq)
          have := hbnd 0 q0 d0 hq hd0
          omega
    · refine ⟨i, p, d, ?_, hi, hd, hbnd, hearly⟩
      exact optimal_evict_replaced st pg future hnotin hfull p hres (List.get?_mem hi)
  · intro hfut p h0
    have hscan : optScan future st.frames none (-1) = some p :=
      optScan_break future st.frames none (-1) 0 p h0 (by simp [hfut, firstIdx])
        (fun j q hj _ => absurd hj (by omega))
    exact optimal_evict_replaced st pg future hnotin hfull p hscan (List.get?_mem h0)

/-- Witness for C1: the {1,2} / future [1,2,3] instance, evicting page 2
by the largest-distance rule. -/
theorem optimal_eviction_rule_witness :
    ((some 3 : Option Nat) ∉ ([some 1, some 2] : List (Option Nat))) ∧
    ((none : Option Nat) ∉ ([some 1, some 2] : List (Option Nat))) ∧
    (∃ i p d,
      ((OptimalReplacement.mk 2 [some 1, some 2] 0 0).access_page 3 [1, 2, 3]).1.replaced_page
          = some p ∧
      ([some 1, some 2] : List (Option Nat)).get? i = some (some p) ∧
      firstIdx p [1, 2, 3] = some d ∧
      (∀ j q e, ([some 1, some 2] : List (Option Nat)).get? j = some (some q) →
        firstIdx q [1, 2, 3] = some e → e ≤ d) ∧
      (∀ j q e, j < i → ([some 1, some 2] : List (Option Nat)).get? j = some (some q) →
        firstIdx q [1, 2, 3] = some e → e < d)) :=
  ⟨by decide, by decide,
   (optimal_eviction_rule ⟨2, [some 1, some 2], 0, 0⟩ 3 [1, 2, 3]
     (by decide) (by decide)).2.1 (by decide) (by decide)⟩

/-! ## Claim C10: allocate_page creates the entry even when allocation fails -/

theorem firstFitGo_no_fit (pid pg sz : Nat) :
    ∀ l : List Frame, (∀ f ∈ l, f.status = FrameStatus.FREE → sz > f.size) →
    firstFitGo pid pg sz l = none := by
  intro l
  induction l with
  | nil => intro h; rfl
  | cons f rest ih =>
    intro h
    have hc : ¬ (f.status = FrameStatus.FREE ∧ sz ≤ f.size) := by
      rintro ⟨h1, h2⟩
      have := h f (List.mem_cons_self _ _) h1
      omega
    simp [firstFitGo, hc, ih (fun g hg h1 => h g (List.mem_cons_of_mem _ hg) h1)]

theorem bestFitScan_no_fit (sz : Nat) :
    ∀ (l : List Frame) (i : Nat) (acc : Option (Nat × Nat)),
    (∀ f ∈ l, f.status = FrameStatus.FREE → sz > f.size) →
    bestFitScan sz l i acc = acc := by
  intro l
  induction l with
  | nil => intro i acc h; rfl
  | cons f rest ih =>
    intro i acc h
    have hc : ¬ (f.status = FrameStatus.FREE ∧ sz ≤ f.size) := by
      rintro ⟨h1, h2⟩
      have := h f (List.mem_cons_self _ _) h1
      omega
    rw [bestFitScan_cons_not _ _ _ _ _ hc]
    exact ih _ _ (fun g hg h1 => h g (List.mem_cons_of_mem _ hg) h1)

theorem nextFitTry_no_fit (pid pg sz : Nat) (frames : List Frame)
    (h : ∀ f ∈ frames, f.status = FrameStatus.FREE → sz > f.size) :
    ∀ idx : List Nat, nextFitTry pid pg sz frames idx = none := by
  intro idx
  induction idx with
  | nil => rfl
  | cons i rest ih =>
    cases hg : frames.get? i with
    | none =>
      have hg2 : frames[i]? = none := by rw [← List.get?_eq_getElem?]; exact hg
      simp [nextFitTry, hg2, ih]
    | some f =>
      have hg2 : frames[i]? = some f := by rw [← List.get?_eq_getElem?]; exact hg
      have hc : ¬ (f.status = FrameStatus.FREE ∧ sz ≤ f.size) := by
        rintro ⟨h1, h2⟩
        have := h f (List.get?_mem hg) h1
        omega
      simp [nextFitTry, hg2, hc, ih]

theorem allocate_none_of_no_fit (a : MemoryAllocator) (frames : List Frame) (pid pg sz : Nat)
    (h : ∀ f ∈ frames, f.status = FrameStatus.FREE → sz > f.size) :
    MemoryAllocator.allocate a frames pid pg sz = none := by
  cases hs : a.strategy with
  | FIRST_FIT => simp [MemoryAllocator.allocate, hs, firstFitGo_no_fit pid pg sz frames h]
  | BEST_FIT =>
    simp [MemoryAllocator.allocate, hs, bestFit, bestFitScan_no_fit sz frames 0 none h]
  | NEXT_FIT =>
    simp [MemoryAllocator.allocate, hs, nextFit, nextFitTry_no_fit pid pg sz frames h]

theorem totalPages_updateA (l : List (Nat × PageTable)) (k : Nat) (u v : PageTable)
    (h : lookupA l k = some u) :
    ((updateA l k v).map (fun kv => kv.2.entries.length)).sum + u.entries.length
      = (l.map (fun kv => kv.2.entries.length)).sum + v.entries.length := by
  induction l with
  | nil => simp [lookupA] at h
  | cons hd tl ih =>
    obtain ⟨k1, v1⟩ := hd
    by_cases h0 : k = k1
    · simp only [lookupA, if_pos h0, Option.some.injEq] at h
      subst h
      simp [updateA, h0]
      omega
    · simp only [lookupA, if_neg h0] at h
      simp only [updateA, if_neg h0, List.map_cons, List.sum_cons]
      have := ih h
      omega

/-- C10: with an existing process, a page id with no entry, and no FREE
frame large enough, allocate_page returns none but still creates a
NOT-PRESENT page-table entry, so the process's total_pages statistic
grows by one while the frames are untouched. -/
theorem allocate_page_not_atomic_on_failure (s : PagingSimulator) (pid pg : Nat)
    (pt : PageTable)
    (hpt : lookupA s.page_tables pid = some pt)
    (hent : lookupA pt.entries pg = none)
    (hfail : ∀ f ∈ s.physical_memory.frames, f.status = FrameStatus.FREE →
      s.physical_memory.frame_size > f.size) :
    (s.allocate_page pid pg none).1 = none ∧
    (s.allocate_page pid pg none).2.physical_memory.frames = s.physical_memory.frames ∧
    (∃ pt2, lookupA (s.allocate_page pid pg none).2.page_tables pid = some pt2 ∧
      lookupA pt2.entries pg = some (PageTableEntry.init pg) ∧
      (PageTableEntry.init pg).present_bit = false ∧
      pt2.entries.length = pt.entries.length + 1) ∧
    (s.allocate_page pid pg none).2.total_pages = s.total_pages + 1 := by
  have hl : MemoryAllocator.allocate s.allocator s.physical_memory.frames pid pg
      s.physical_memory.frame_size = none :=
    allocate_none_of_no_fit _ _ _ _ _ hfail
  have hres : s.allocate_page pid pg none
      = (none, { s with page_tables := updateA s.page_tables pid ({ pt with
          entries := pt.entries ++ [(pg, PageTableEntry.init pg)] }) }) := by
    simp [PagingSimulator.allocate_page, hpt, hent, PageTable.create_page,
      PageTableEntry.init, hl]
  rw [hres]
  refine ⟨rfl, rfl, ?_, ?_⟩
  · refine ⟨{ pt with entries := pt.entries ++ [(pg, PageTableEntry.init pg)] }, ?_, ?_, rfl, ?_⟩
    · simp [lookupA_updateA, hpt]
    · rw [lookupA_append_of_none _ hent]
      simp [lookupA]
    · simp
  · show ((updateA s.page_tables pid _).map (fun kv => kv.2.entries.length)).sum
        = (s.page_tables.map (fun kv => kv.2.entries.length)).sum + 1
    have := totalPages_updateA s.page_tables pid pt
      { pt with entries := pt.entries ++ [(pg, PageTableEntry.init pg)] } hpt
    simp at this
    omega

/-- Witness for C10: a one-frame simulator whose only frame is already
allocated; allocating page 1 fails yet creates the entry. -/
theorem allocate_page_not_atomic_witness :
    lookupA demoSim.page_tables 1 = some demoPT ∧
    lookupA demoPT.entries 1 = none ∧
    (∀ f ∈ demoSim.physical_memory.frames, f.status = FrameStatus.FREE →
      demoSim.physical_memory.frame_size > f.size) ∧
    (demoSim.allocate_page 1 1 none).1 = none ∧
    (demoSim.allocate_page 1 1 none).2.physical_memory.frames
        = demoSim.physical_memory.frames ∧
    (demoSim.allocate_page 1 1 none).2.total_pages = demoSim.total_pages + 1 :=
  ⟨by decide, by decide, by decide,
   (allocate_page_not_atomic_on_failure demoSim 1 1 demoPT
     (by decide) (by decide) (by decide)).1,
   (allocate_page_not_atomic_on_failure demoSim 1 1 demoPT
     (by decide) (by decide) (by decide)).2.1,
   (allocate_page_not_atomic_on_failure demoSim 1 1 demoPT
     (by decide) (by decide) (by decide)).2.2.2⟩

/-! ## Claim C6: round-trip translation -/

/-- C6: for a page mapped (present) to a real frame f, translating
page_id*page_size + k for any 0 <= k < page_size yields physical address
f*frame_size + k, offset k, and no fault. -/
theorem translate_round_trip (s : PagingSimulator) (pid pg f k : Nat)
    (pt : PageTable) (e : PageTableEntry) (fr : Frame)
    (hpt : lookupA s.page_tables pid = some pt)
    (hps : pt.page_size = s.physical_memory.frame_size)
    (hpos : 0 < pt.page_size)
    (he : lookupA pt.entries pg = some e)
    (hpres : e.present_bit = true)
    (hfid : e.frame_id = some f)
    (hfr : s.physical_memory.get_frame f = some fr)
    (hk : k < pt.page_size) :
    (s.translate_address pid (pg * pt.page_size + k)).1
      = some (some (f * s.physical_memory.frame_size + k), k, false) := by
  have hdiv : (pg * pt.page_size + k) / pt.page_size = pg := by
    rw [mul_comm, Nat.mul_add_div hpos, Nat.div_eq_of_lt hk]
    omega
  have hmod : (pg * pt.page_size + k) % pt.page_size = k := by
    rw [mul_comm, Nat.mul_add_mod, Nat.mod_eq_of_lt hk]
  simp [PagingSimulator.translate_address, hpt, hdiv, hmod, he, hpres, hfid, hfr]

/-- Witness for C6 at page 0 mapped to frame 0 of a 16-byte-frame
simulator, offset k = 5. -/
theorem translate_round_trip_witness :
    lookupA demoSim.page_tables 1 = some demoPT ∧
    demoPT.page_size = demoSim.physical_memory.frame_size ∧
    0 < demoPT.page_size ∧
    lookupA demoPT.entries 0 = some demoEntry ∧
    demoEntry.present_bit = true ∧
    demoEntry.frame_id = some 0 ∧
    demoSim.physical_memory.get_frame 0
        = some ⟨0, 16, FrameStatus.ALLOCATED, some 1, some 0, 16⟩ ∧
    (5 : Nat) < demoPT.page_size ∧
    (demoSim.translate_address 1 (0 * demoPT.page_size + 5)).1
        = some (some (0 * demoSim.physical_memory.frame_size + 5), 5, false) :=
  ⟨by decide, by decide, by decide, by decide, by decide, by decide, by decide, by decide,
   translate_round_trip demoSim 1 0 0 5 demoPT demoEntry
     ⟨0, 16, FrameStatus.ALLOCATED, some 1, some 0, 16⟩
     (by decide) (by decide) (by decide) (by decide) (by decide) (by decide)
     (by decide) (by decide)⟩

/-! ## Claim C5: exclusive frame ownership on all reachable states -/

theorem frame_allocate_some {f : Frame} {pid pg sz : Nat} {f2 : Frame}
    (h : f.allocate pid pg sz = some f2) :
    f.status = FrameStatus.FREE ∧ sz ≤ f.size ∧ f2.frame_id = f.frame_id ∧
      f2.status = FrameStatus.ALLOCATED := by
  unfold Frame.allocate at h
  by_cases hc : f.status = FrameStatus.FREE ∧ sz ≤ f.size
  · rw [if_pos hc] at h
    have h2 := Option.some.inj h
    exact ⟨hc.1, hc.2, by rw [← h2], by rw [← h2]⟩
  · rw [if_neg hc] at h
    cases h

theorem frame_allocate_none_of_alloc {f : Frame} {pid pg sz : Nat}
    (h : f.status = FrameStatus.ALLOCATED) : f.allocate pid pg sz = none := by
  unfold Frame.allocate
  rw [if_neg]
  rintro ⟨h1, _⟩
  rw [h] at h1
  cases h1

theorem frame_deallocate_some {f f2 : Frame} (h : f.deallocate = some f2) :
    f.status = FrameStatus.ALLOCATED ∧ f2.frame_id = f.frame_id ∧
      f2.status = FrameStatus.FREE := by
  unfold Frame.deallocate at h
  by_cases hc : f.status = FrameStatus.ALLOCATED
  · rw [if_pos hc] at h
    have h2 := Option.some.inj h
    exact ⟨hc, by rw [← h2], by rw [← h2]⟩
  · rw [if_neg hc] at h
    cases h

theorem firstFitGo_spec (pid pg sz : Nat) :
    ∀ (l : List Frame) (fid : Nat) (l2 : List Frame),
    firstFitGo pid pg sz l = some (fid, l2) →
    ∃ i f f2, l.get? i = some f ∧ fid = f.frame_id ∧
      f.allocate pid pg sz = some f2 ∧ l2 = l.set i f2 := by
  intro l
  induction l with
  | nil =>
    intro fid l2 h
    cases h
  | cons f rest ih =>
    intro fid l2 h
    by_cases hc : f.status = FrameStatus.FREE ∧ sz ≤ f.size
    · rw [show firstFitGo pid pg sz (f :: rest)
          = match f.allocate pid pg sz with
            | some f2 => some (f.frame_id, f2 :: rest)
            | none => (firstFitGo pid pg sz rest).map (fun r => (r.1, f :: r.2))
          from by simp [firstFitGo, hc]] at h
      cases halloc : f.allocate pid pg sz with
      | some f2 =>
        rw [halloc] at h
        have h2 : f.frame_id = fid ∧ f2 :: rest = l2 := by simpa using h
        refine ⟨0, f, f2, rfl, h2.1.symm, halloc, ?_⟩
        rw [← h2.2]
        rfl
      | none =>
        rw [halloc] at h
        cases hrec : firstFitGo pid pg sz rest with
        | none =>
          rw [hrec] at h
          cases h
        | some r =>
          rw [hrec] at h
          obtain ⟨fid0, l0⟩ := r
          have h2 : fid0 = fid ∧ f :: l0 = l2 := by simpa using h
          obtain ⟨i, g, g2, hg, hfid, hga, hl0⟩ := ih fid0 l0 hrec
          refine ⟨i + 1, g, g2, by simpa using hg, by rw [← h2.1]; exact hfid, hga, ?_⟩
          rw [← h2.2, hl0]
          rfl
    · rw [show firstFitGo pid pg sz (f :: rest)
          = (firstFitGo pid pg sz rest).map (fun r => (r.1, f :: r.2))
          from by simp [firstFitGo, hc]] at h
      cases hrec : firstFitGo pid pg sz rest with
      | none =>
        rw [hrec] at h
        cases h
      | some r =>
        rw [hrec] at h
        obtain ⟨fid0, l0⟩ := r
        have h2 : fid0 = fid ∧ f :: l0 = l2 := by simpa using h
        obtain ⟨i, g, g2, hg, hfid, hga, hl0⟩ := ih fid0 l0 hrec
        refine ⟨i + 1, g, g2, by simpa using hg, by rw [← h2.1]; exact hfid, hga, ?_⟩
        rw [← h2.2, hl0]
        rfl

theorem bestFit_spec (frames : List Frame) (pid pg sz fid : Nat) (frames2 : List Frame)
    (h : bestFit frames pid pg sz = some (fid, frames2)) :
    ∃ i f f2, frames.get? i = some f ∧ fid = f.frame_id ∧
      f.allocate pid pg sz = some f2 ∧ frames2 = frames.set i f2 := by
  unfold bestFit at h
  cases hscan : bestFitScan sz frames 0 none with
  | none =>
    rw [hscan] at h
    cases h
  | some p =>
    obtain ⟨bi, bw⟩ := p
    rw [hscan] at h
    dsimp only at h
    cases hget : frames.get? bi with
    | none =>
      rw [hget] at h
      cases h
    | some f =>
      rw [hget] at h
      dsimp only at h
      cases halloc : f.allocate pid pg sz with
      | none =>
        rw [halloc] at h
        cases h
      | some f2 =>
        rw [halloc] at h
        have h2 : f.frame_id = fid ∧ frames.set bi f2 = frames2 := by simpa using h
        exact ⟨bi, f, f2, hget, h2.1.symm, halloc, h2.2.symm⟩

theorem nextFitTry_spec (pid pg sz : Nat) (frames : List Frame) :
    ∀ (idx : List Nat) (fid cur : Nat) (frames2 : List Frame),
    nextFitTry pid pg sz frames idx = some (fid, cur, frames2) →
    ∃ i f f2, frames.get? i = some f ∧ fid = f.frame_id ∧
      f.allocate pid pg sz = some f2 ∧ frames2 = frames.set i f2 := by
  intro idx
  induction idx with
  | nil =>
    intro fid cur frames2 h
    cases h
  | cons i rest ih =>
    intro fid cur frames2 h
    cases hg : frames.get? i with
    | none =>
      rw [show nextFitTry pid pg sz frames (i :: rest) = nextFitTry pid pg sz frames rest
          from by simp only [nextFitTry]; rw [hg]] at h
      exact ih _ _ _ h
    | some f =>
      by_cases hc : f.status = FrameStatus.FREE ∧ sz ≤ f.size
      · cases halloc : f.allocate pid pg sz with
        | some f2 =>
          rw [show nextFitTry pid pg sz frames (i :: rest)
              = some (f.frame_id, (i + 1) % frames.length, frames.set i f2)
              from by simp only [nextFitTry]; rw [hg]; simp [hc, halloc]] at h
          have h2 : f.frame_id = fid ∧ (i + 1) % frames.length = cur ∧
              frames.set i f2 = frames2 := by simpa using h
          exact ⟨i, f, f2, hg, h2.1.symm, halloc, h2.2.2.symm⟩
        | none =>
          rw [show nextFitTry pid pg sz frames (i :: rest) = nextFitTry pid pg sz frames rest
              from by simp only [nextFitTry]; rw [hg]; simp [hc, halloc]] at h
          exact ih _ _ _ h
      · rw [show nextFitTry pid pg sz frames (i :: rest) = nextFitTry pid pg sz frames rest
            from by simp only [nextFitTry]; rw [hg]; simp [hc]] at h
        exact ih _ _ _ h

theorem allocate_spec (a : MemoryAllocator) (frames : List Frame) (pid pg sz fid : Nat)
    (frames2 : List Frame) (a2 : MemoryAllocator)
    (h : MemoryAllocator.allocate a frames pid pg sz = some (fid, frames2, a2)) :
    ∃ i f f2, frames.get? i = some f ∧ fid = f.frame_id ∧
      f.allocate pid pg sz = some f2 ∧ frames2 = frames.set i f2 := by
  unfold MemoryAllocator.allocate at h
  cases hs : a.strategy with
  | FIRST_FIT =>
    rw [hs] at h
    cases hrec : firstFitGo pid pg sz frames with
    | none =>
      rw [hrec] at h
      cases h
    | some r =>
      rw [hrec] at h
      obtain ⟨fid0, l0⟩ := r
      have h2 : fid0 = fid ∧ l0 = frames2 := by
        have := h
        simp at this
        exact ⟨this.1, this.2.1⟩
      obtain ⟨i, f, f2, hf, hfid, hfa, hl⟩ := firstFitGo_spec pid pg sz frames fid0 l0 hrec
      exact ⟨i, f, f2, hf, by rw [← h2.1]; exact hfid, hfa, by rw [← h2.2]; exact hl⟩
  | BEST_FIT =>
    rw [hs] at h
    cases hrec : bestFit frames pid pg sz with
    | none =>
      rw [hrec] at h
      cases h
    | some r =>
      rw [hrec] at h
      obtain ⟨fid0, l0⟩ := r
      have h2 : fid0 = fid ∧ l0 = frames2 := by
        have := h
        simp at this
        exact ⟨this.1, this.2.1⟩
      obtain ⟨i, f, f2, hf, hfid, hfa, hl⟩ := bestFit_spec frames pid pg sz fid0 l0 hrec
      exact ⟨i, f, f2, hf, by rw [← h2.1]; exact hfid, hfa, by rw [← h2.2]; exact hl⟩
  | NEXT_FIT =>
    rw [hs] at h
    cases hrec : nextFit pid pg sz a.next_fit_start frames with
    | none =>
      rw [hrec] at h
      cases h
    | some r =>
      rw [hrec] at h
      obtain ⟨fid0, cur0, l0⟩ := r
      have h2 : fid0 = fid ∧ l0 = frames2 := by
        have := h
        simp at this
        exact ⟨this.1, this.2.1⟩
      have hspec : ∃ i f f2, frames.get? i = some f ∧ fid0 = f.frame_id ∧
          f.allocate pid pg sz = some f2 ∧ l0 = frames.set i f2 := by
        unfold nextFit at hrec
        cases htry : nextFitTry pid pg sz frames
            ((List.range frames.length).drop a.next_fit_start) with
        | some r2 =>
          rw [htry] at hrec
          obtain ⟨a1, b1, c1⟩ := r2
          have h3 : a1 = fid0 ∧ b1 = cur0 ∧ c1 = l0 := by simpa using hrec
          obtain ⟨i, f, f2, hf, hfid, hfa, hl⟩ :=
            nextFitTry_spec pid pg sz frames _ a1 b1 c1 htry
          exact ⟨i, f, f2, hf, by rw [← h3.1]; exact hfid, hfa, by rw [← h3.2.2]; exact hl⟩
        | none =>
          rw [htry] at hrec
          exact nextFitTry_spec pid pg sz frames _ fid0 cur0 l0 hrec
      obtain ⟨i, f, f2, hf, hfid, hfa, hl⟩ := hspec
      exact ⟨i, f, f2, hf, by rw [← h2.1]; exact hfid, hfa, by rw [← h2.2]; exact hl⟩

theorem get?_some_lt {α : Type} {l : List α} {i : Nat} {x : α} (h : l.get? i = some x) :
    i < l.length := by
  by_contra hc
  rw [List.get?_eq_getElem?] at h
  rw [List.getElem?_eq_none (by omega)] at h
  cases h

theorem lookupA_append_single_cases {α : Type} {l : List (Nat × α)} {k k0 : Nat} {v u : α}
    (h : lookupA (l ++ [(k, v)]) k0 = some u) :
    lookupA l k0 = some u ∨ (lookupA l k0 = none ∧ k0 = k ∧ u = v) := by
  cases hl : lookupA l k0 with
  | some w =>
    rw [lookupA_append_of_some _ hl] at h
    exact Or.inl h
  | none =>
    rw [lookupA_append_of_none _ hl] at h
    by_cases hk : k0 = k
    · refine Or.inr ⟨rfl, hk, ?_⟩
      have h2 : some v = some u := by simpa [lookupA, hk] using h
      exact (Option.some.inj h2).symm
    · exfalso
      simp [lookupA, hk] at h

theorem nodup_append_single {l : List Nat} {a : Nat} (h : l.Nodup) (ha : a ∉ l) :
    (l ++ [a]).Nodup := by
  refine List.Nodup.append h (List.nodup_singleton a) ?_
  intro x hx hy
  simp at hy
  subst hy
  exact ha hx

theorem create_page_lookup {pt : PageTable} {pg pg0 : Nat} {e : PageTableEntry}
    (h : lookupA (pt.create_page pg).2.entries pg0 = some e) :
    lookupA pt.entries pg0 = some e ∨ e = PageTableEntry.init pg0 := by
  unfold PageTable.create_page at h
  cases hl : lookupA pt.entries pg with
  | some e0 =>
    rw [hl] at h
    exact Or.inl h
  | none =>
    rw [hl] at h
    dsimp only at h
    rcases lookupA_append_single_cases h with h1 | ⟨_, h2, h3⟩
    · exact Or.inl h1
    · exact Or.inr (by rw [h2]; exact h3)

theorem create_page_nodup {pt : PageTable} {pg : Nat}
    (h : (pt.entries.map Prod.fst).Nodup) :
    ((pt.create_page pg).2.entries.map Prod.fst).Nodup := by
  unfold PageTable.create_page
  cases hl : lookupA pt.entries pg with
  | some e0 => exact h
  | none =>
    dsimp only
    simp only [List.map_append, List.map_cons, List.map_nil]
    exact nodup_append_single h ((lookupA_none_iff _ _).1 hl)

theorem foldl_create_lookup :
    ∀ (l : List Nat) (pt : PageTable) (pg0 : Nat) (e : PageTableEntry),
    lookupA (l.foldl (fun t i => (t.create_page i).2) pt).entries pg0 = some e →
    lookupA pt.entries pg0 = some e ∨ e = PageTableEntry.init pg0 := by
  intro l
  induction l with
  | nil =>
    intro pt pg0 e h
    exact Or.inl h
  | cons i rest ih =>
    intro pt pg0 e h
    rcases ih (pt.create_page i).2 pg0 e h with h1 | h1
    · exact create_page_lookup h1
    · exact Or.inr h1

theorem foldl_create_nodup :
    ∀ (l : List Nat) (pt : PageTable), (pt.entries.map Prod.fst).Nodup →
    ((l.foldl (fun t i => (t.create_page i).2) pt).entries.map Prod.fst).Nodup := by
  intro l
  induction l with
  | nil =>
    intro pt h
    exact h
  | cons i rest ih =>
    intro pt h
    exact ih _ (create_page_nodup h)

theorem inv_init (n fs : Nat) (strat : AllocationStrategy) :
    SimInv (PagingSimulator.init n fs strat) := by
  refine ⟨?_, ?_, ?_, ?_, ?_⟩
  · intro i f hf
    simp only [PagingSimulator.init, PhysicalMemory.init] at hf
    rw [list_get?_map] at hf
    by_cases hi : i < n
    · have hr : (List.range n).get? i = some i := by simp [List.get?_eq_getElem?, hi]
      rw [hr] at hf
      have h2 : Frame.init i fs = f := by simpa using hf
      rw [← h2]
      rfl
    · have hr : (List.range n).get? i = none := by
        rw [List.get?_eq_getElem?, List.getElem?_eq_none]
        simpa using by omega
      rw [hr] at hf
      cases hf
  · simp [PagingSimulator.init]
  · intro pid pt h
    simp [PagingSimulator.init, lookupA] at h
  · intro pid pt pg e h
    simp [PagingSimulator.init, lookupA] at h
  · intro p1 t1 g1 e1 p2 t2 g2 e2 fid h1
    simp [PagingSimulator.init, lookupA] at h1

theorem inv_create (s : PagingSimulator) (pid np : Nat) (hinv : SimInv s) :
    SimInv (s.create_process pid np).2 := by
  unfold PagingSimulator.create_process
  cases hl : lookupA s.page_tables pid with
  | some pt => exact hinv
  | none =>
    dsimp only
    have hNnp : ∀ pg0 e,
        lookupA (createPagesUpTo (PageTable.init pid s.physical_memory.frame_size) np).entries
          pg0 = some e → e.present_bit = false := by
      intro pg0 e he
      rcases foldl_create_lookup _ _ _ _ he with h1 | h1
      · simp [PageTable.init, lookupA] at h1
      · rw [h1]
        rfl
    have hNnd : ((createPagesUpTo (PageTable.init pid s.physical_memory.frame_size)
        np).entries.map Prod.fst).Nodup := by
      apply foldl_create_nodup
      simp [PageTable.init]
    have hdec : ∀ pid0 X,
        lookupA (s.page_tables
          ++ [(pid, createPagesUpTo (PageTable.init pid s.physical_memory.frame_size) np)])
          pid0 = some X →
        lookupA s.page_tables pid0 = some X ∨
          (pid0 = pid ∧ X = createPagesUpTo (PageTable.init pid s.physical_memory.frame_size)
            np) := by
      intro pid0 X hX
      rcases lookupA_append_single_cases hX with h1 | ⟨_, h2, h3⟩
      · exact Or.inl h1
      · exact Or.inr ⟨h2, h3⟩
    refine ⟨hinv.ids, ?_, ?_, ?_, ?_⟩
    · simp only [List.map_append, List.map_cons, List.map_nil]
      exact nodup_append_single hinv.ndk ((lookupA_none_iff _ _).1 hl)
    · intro pid0 pt0 h0
      rcases hdec pid0 pt0 h0 with h1 | ⟨_, h1⟩
      · exact hinv.entk pid0 pt0 h1
      · rw [h1]
        exact hNnd
    · intro pid0 pt0 pg0 e0 h0 he0 hp0
      rcases hdec pid0 pt0 h0 with h1 | ⟨_, h1⟩
      · exact hinv.pok pid0 pt0 pg0 e0 h1 he0 hp0
      · exfalso
        rw [h1] at he0
        rw [hNnp pg0 e0 he0] at hp0
        cases hp0
    · intro p1 t1 g1 e1 p2 t2 g2 e2 fid h1 he1 h2 he2 hp1 hp2 hf1 hf2
      rcases hdec p1 t1 h1 with k1 | ⟨_, k1⟩
      · rcases hdec p2 t2 h2 with k2 | ⟨_, k2⟩
        · exact hinv.exc p1 t1 g1 e1 p2 t2 g2 e2 fid k1 he1 k2 he2 hp1 hp2 hf1 hf2
        · exfalso
          rw [k2] at he2
          rw [hNnp g2 e2 he2] at hp2
          cases hp2
      · exfalso
        rw [k1] at he1
        rw [hNnp g1 e1 he1] at hp1
        cases hp1

theorem updateA_self_state (s : PagingSimulator) (pid : Nat) (pt : PageTable)
    (hpt : lookupA s.page_tables pid = some pt) :
    { s with page_tables := updateA s.page_tables pid pt } = s := by
  rw [updateA_same hpt]

theorem inv_append_entry (s : PagingSimulator) (pid pg : Nat) (pt : PageTable)
    (hinv : SimInv s)
    (hpt : lookupA s.page_tables pid = some pt)
    (hent : lookupA pt.entries pg = none) :
    SimInv { s with page_tables := updateA s.page_tables pid ({ pt with
      entries := pt.entries ++ [(pg, PageTableEntry.init pg)] }) } := by
  have hdec : ∀ pid0 X, lookupA (updateA s.page_tables pid ({ pt with
      entries := pt.entries ++ [(pg, PageTableEntry.init pg)] })) pid0 = some X →
      (pid0 = pid ∧ X = { pt with entries := pt.entries ++ [(pg, PageTableEntry.init pg)] })
        ∨ (pid0 ≠ pid ∧ lookupA s.page_tables pid0 = some X) := by
    intro pid0 X hX
    rw [lookupA_updateA] at hX
    by_cases h0 : pid0 = pid
    · rw [if_pos h0, hpt] at hX
      exact Or.inl ⟨h0, (Option.some.inj hX).symm⟩
    · rw [if_neg h0] at hX
      exact Or.inr ⟨h0, hX⟩
  have hentdec : ∀ pg0 e,
      lookupA (pt.entries ++ [(pg, PageTableEntry.init pg)]) pg0 = some e →
      lookupA pt.entries pg0 = some e ∨ e = PageTableEntry.init pg := by
    intro pg0 e he
    rcases lookupA_append_single_cases he with h1 | ⟨_, _, h3⟩
    · exact Or.inl h1
    · exact Or.inr h3
  refine ⟨hinv.ids, ?_, ?_, ?_, ?_⟩
  · rw [keys_updateA]
    exact hinv.ndk
  · intro pid0 pt0 h0
    rcases hdec pid0 pt0 h0 with ⟨_, h1⟩ | ⟨_, h1⟩
    · rw [h1]
      simp only [List.map_append, List.map_cons, List.map_nil]
      exact nodup_append_single (hinv.entk pid pt hpt) ((lookupA_none_iff _ _).1 hent)
    · exact hinv.entk pid0 pt0 h1
  · intro pid0 pt0 pg0 e0 h0 he0 hp0
    rcases hdec pid0 pt0 h0 with ⟨_, h1⟩ | ⟨_, h1⟩
    · rw [h1] at he0
      rcases hentdec pg0 e0 he0 with h2 | h2
      · exact hinv.pok pid pt pg0 e0 hpt h2 hp0
      · exfalso
        rw [h2] at hp0
        cases hp0
    · exact hinv.pok pid0 pt0 pg0 e0 h1 he0 hp0
  · intro p1 t1 g1 e1 p2 t2 g2 e2 fid h1 he1 h2 he2 hp1 hp2 hf1 hf2
    have red : ∀ p t g e, lookupA (updateA s.page_tables pid ({ pt with
        entries := pt.entries ++ [(pg, PageTableEntry.init pg)] })) p = some t →
        lookupA t.entries g = some e → e.present_bit = true →
        ∃ t0, lookupA s.page_tables p = some t0 ∧ lookupA t0.entries g = some e := by
      intro p t g e ht hent2 hp
      rcases hdec p t ht with ⟨hpe, hte⟩ | ⟨_, hte⟩
      · rw [hte] at hent2
        rcases hentdec g e hent2 with h3 | h3
        · exact ⟨pt, by rw [hpe]; exact hpt, h3⟩
        · exfalso
          rw [h3] at hp
          cases hp
      · exact ⟨t, hte, hent2⟩
    obtain ⟨t10, ht10, he10⟩ := red p1 t1 g1 e1 h1 he1 hp1
    obtain ⟨t20, ht20, he20⟩ := red p2 t2 g2 e2 h2 he2 hp2
    exact hinv.exc p1 t10 g1 e1 p2 t20 g2 e2 fid ht10 he10 ht20 he20 hp1 hp2 hf1 hf2

theorem inv_alloc_success (s : PagingSimulator) (pid pg alloc_size fid : Nat)
    (pt pt1 : PageTable) (e : PageTableEntry)
    (frames2 : List Frame) (alloc2 : MemoryAllocator) (procs2 : List (Nat × ProcInfo))
    (hinv : SimInv s)
    (hpt : lookupA s.page_tables pid = some pt)
    (hpt1look : ∀ pg0 e0, lookupA pt1.entries pg0 = some e0 → e0.present_bit = true →
      lookupA pt.entries pg0 = some e0)
    (hpt1some : lookupA pt1.entries pg = some e)
    (hpt1nd : (pt1.entries.map Prod.fst).Nodup)
    (halloc : MemoryAllocator.allocate s.allocator s.physical_memory.frames pid pg alloc_size
      = some (fid, frames2, alloc2)) :
    SimInv { s with
      physical_memory := { s.physical_memory with frames := frames2 },
      page_tables := updateA s.page_tables pid ({ pt1 with
        entries := updateA pt1.entries pg (e.map_to_frame fid) }),
      allocator := alloc2,
      processes := procs2 } := by
  obtain ⟨i, f, f2, hfi, hfid, hfa, hfr2⟩ :=
    allocate_spec s.allocator s.physical_memory.frames pid pg alloc_size fid frames2
      alloc2 halloc
  obtain ⟨hfree, _, hf2id, hf2st⟩ := frame_allocate_some hfa
  have hlen : i < s.physical_memory.frames.length := get?_some_lt hfi
  have hidx : fid = i := by
    rw [hfid, hinv.ids i f hfi]
  subst hidx
  subst hfr2
  have hget2 : (s.physical_memory.frames.set fid f2).get? fid = some f2 :=
    list_get?_set_self _ _ hlen
  have hdec : ∀ pid0 X, lookupA (updateA s.page_tables pid ({ pt1 with
      entries := updateA pt1.entries pg (e.map_to_frame fid) })) pid0 = some X →
      (pid0 = pid ∧ X = { pt1 with
        entries := updateA pt1.entries pg (e.map_to_frame fid) })
        ∨ (pid0 ≠ pid ∧ lookupA s.page_tables pid0 = some X) := by
    intro pid0 X hX
    rw [lookupA_updateA] at hX
    by_cases h0 : pid0 = pid
    · rw [if_pos h0, hpt] at hX
      exact Or.inl ⟨h0, (Option.some.inj hX).symm⟩
    · rw [if_neg h0] at hX
      exact Or.inr ⟨h0, hX⟩
  have hentdec : ∀ pg0 e0,
      lookupA (updateA pt1.entries pg (e.map_to_frame fid)) pg0 = some e0 →
      (pg0 = pg ∧ e0 = e.map_to_frame fid) ∨ (pg0 ≠ pg ∧ lookupA pt1.entries pg0 = some e0) := by
    intro pg0 e0 h0
    rw [lookupA_updateA] at h0
    by_cases hg0 : pg0 = pg
    · rw [if_pos hg0, hpt1some] at h0
      exact Or.inl ⟨hg0, (Option.some.inj h0).symm⟩
    · rw [if_neg hg0] at h0
      exact Or.inr ⟨hg0, h0⟩
  have hold : ∀ pid0 pt0 pg0 e0, lookupA s.page_tables pid0 = some pt0 →
      lookupA pt0.entries pg0 = some e0 → e0.present_bit = true →
      ∃ fid0 g, e0.frame_id = some fid0 ∧ fid0 ≠ fid ∧
        (s.physical_memory.frames.set fid f2).get? fid0 = some g ∧
        g.status = FrameStatus.ALLOCATED := by
    intro pid0 pt0 pg0 e0 ht0 he0 hp0
    obtain ⟨fid0, g, hfe, hfg, hgst⟩ := hinv.pok pid0 pt0 pg0 e0 ht0 he0 hp0
    have hne : fid0 ≠ fid := by
      intro hc
      subst hc
      rw [hfi] at hfg
      have hgf : g = f := Option.some.inj hfg.symm
      rw [hgf, hfree] at hgst
      cases hgst
    refine ⟨fid0, g, hfe, hne, ?_, hgst⟩
    rw [list_get?_set_ne _ _ (fun hc => hne hc.symm)]
    exact hfg
  have hmapfid : (e.map_to_frame fid).frame_id = some fid := rfl
  have hmappres : (e.map_to_frame fid).present_bit = true := rfl
  have hdecP : ∀ p t g e0, lookupA (updateA s.page_tables pid ({ pt1 with
      entries := updateA pt1.entries pg (e.map_to_frame fid) })) p = some t →
      lookupA t.entries g = some e0 → e0.present_bit = true →
      (p = pid ∧ g = pg ∧ e0 = e.map_to_frame fid) ∨
        (∃ t0, lookupA s.page_tables p = some t0 ∧ lookupA t0.entries g = some e0) := by
    intro p t g e0 ht hent2 hp
    rcases hdec p t ht with ⟨hpe, hte⟩ | ⟨_, hte⟩
    · rw [hte] at hent2
      rcases hentdec g e0 hent2 with ⟨hge, hee⟩ | ⟨_, h3⟩
      · exact Or.inl ⟨hpe, hge, hee⟩
      · exact Or.inr ⟨pt, by rw [hpe]; exact hpt, hpt1look g e0 h3 hp⟩
    · exact Or.inr ⟨t, hte, hent2⟩
  refine ⟨?_, ?_, ?_, ?_, ?_⟩
  · intro j g hg
    by_cases hj : j = fid
    · subst hj
      rw [hget2] at hg
      have : f2 = g := Option.some.inj hg
      rw [← this, hf2id]
      exact hinv.ids j f hfi
    · rw [list_get?_set_ne _ _ (fun hc => hj hc.symm)] at hg
      exact hinv.ids j g hg
  · rw [keys_updateA]
    exact hinv.ndk
  · intro pid0 pt0 h0
    rcases hdec pid0 pt0 h0 with ⟨_, h1⟩ | ⟨_, h1⟩
    · rw [h1]
      simp only [keys_updateA]
      exact hpt1nd
    · exact hinv.entk pid0 pt0 h1
  · intro pid0 pt0 pg0 e0 h0 he0 hp0
    rcases hdecP pid0 pt0 pg0 e0 h0 he0 hp0 with ⟨_, _, hee⟩ | ⟨t0, ht0, he0'⟩
    · rw [hee, hmapfid]
      exact ⟨fid, f2, rfl, hget2, hf2st⟩
    · obtain ⟨fid0, g, hfe, _, hfg, hgst⟩ := hold pid0 t0 pg0 e0 ht0 he0' hp0
      exact ⟨fid0, g, hfe, hfg, hgst⟩
  · intro p1 t1 g1 e1 p2 t2 g2 e2 fid2 h1 he1 h2 he2 hp1 hp2 hf1 hf2
    rcases hdecP p1 t1 g1 e1 h1 he1 hp1 with ⟨hp1e, hg1e, he1e⟩ | ⟨t10, ht10, he10⟩
    · rcases hdecP p2 t2 g2 e2 h2 he2 hp2 with ⟨hp2e, hg2e, he2e⟩ | ⟨t20, ht20, he20⟩
      · exact ⟨by rw [hp1e, hp2e], by rw [hg1e, hg2e]⟩
      · exfalso
        obtain ⟨fid0, g, hfe, hne, _, _⟩ := hold p2 t20 g2 e2 ht20 he20 hp2
        rw [he1e, hmapfid] at hf1
        rw [hfe] at hf2
        have e1eq : fid = fid2 := Option.some.inj hf1
        have e2eq : fid0 = fid2 := Option.some.inj hf2
        omega
    · rcases hdecP p2 t2 g2 e2 h2 he2 hp2 with ⟨hp2e, hg2e, he2e⟩ | ⟨t20, ht20, he20⟩
      · exfalso
        obtain ⟨fid0, g, hfe, hne, _, _⟩ := hold p1 t10 g1 e1 ht10 he10 hp1
        rw [he2e, hmapfid] at hf2
        rw [hfe] at hf1
        have e1eq : fid0 = fid2 := Option.some.inj hf1
        have e2eq : fid = fid2 := Option.some.inj hf2
        omega
      · exact hinv.exc p1 t10 g1 e1 p2 t20 g2 e2 fid2 ht10 he10 ht20 he20 hp1 hp2 hf1 hf2

theorem inv_alloc (s : PagingSimulator) (pid pg : Nat) (size : Option Nat) (hinv : SimInv s) :
    SimInv (s.allocate_page pid pg size).2 := by
  cases hpt : lookupA s.page_tables pid with
  | none =>
    have hres : s.allocate_page pid pg size = (none, s) := by
      simp [PagingSimulator.allocate_page, hpt]
    rw [hres]
    exact hinv
  | some pt =>
    cases hent : lookupA pt.entries pg with
    | some e0 =>
      by_cases hcond : e0.present_bit = true ∧ e0.frame_id.isSome
      · have hres : s.allocate_page pid pg size = (e0.frame_id, s) := by
          simp [PagingSimulator.allocate_page, hpt, hent, hcond.1, hcond.2,
            updateA_same hpt]
        rw [hres]
        exact hinv
      · cases halloc : MemoryAllocator.allocate s.allocator s.physical_memory.frames pid pg
            (size.getD s.physical_memory.frame_size) with
        | none =>
          have hres : s.allocate_page pid pg size = (none, s) := by
            simp [PagingSimulator.allocate_page, hpt, hent, hcond, halloc, updateA_same hpt]
          rw [hres]
          exact hinv
        | some r =>
          obtain ⟨fid, frames2, alloc2⟩ := r
          obtain ⟨i, f, f2, hfi, hfid, hfa, hfr2⟩ :=
            allocate_spec s.allocator s.physical_memory.frames pid pg _ fid frames2
              alloc2 halloc
          have hidx : fid = i := by rw [hfid, hinv.ids i f hfi]
          have hf2st := (frame_allocate_some hfa).2.2.2
          have hlen : i < s.physical_memory.frames.length := get?_some_lt hfi
          have hgf : PhysicalMemory.get_frame { s.physical_memory with frames := frames2 } fid
              = some f2 := by
            subst hfr2
            subst hidx
            exact list_get?_set_self _ _ hlen
          have hnoop : ∀ sz2, f2.allocate pid pg sz2 = none :=
            fun _ => frame_allocate_none_of_alloc hf2st
          have happ : SimInv { s with
              physical_memory := { s.physical_memory with frames := frames2 },
              page_tables := updateA s.page_tables pid ({ pt with
                entries := updateA pt.entries pg (e0.map_to_frame fid) }),
              allocator := alloc2,
              processes := (match lookupA s.processes pid with
                | some info => updateA s.processes pid
                    { info with allocated_pages := info.allocated_pages + 1 }
                | none => s.processes) } :=
            inv_alloc_success s pid pg _ fid pt pt e0 frames2 alloc2 _ hinv hpt
              (fun _ _ h1 _ => h1) hent (hinv.entk pid pt hpt) halloc
          have hres : (s.allocate_page pid pg size).2 = { s with
              physical_memory := { s.physical_memory with frames := frames2 },
              page_tables := updateA s.page_tables pid ({ pt with
                entries := updateA pt.entries pg (e0.map_to_frame fid) }),
              allocator := alloc2,
              processes := (match lookupA s.processes pid with
                | some info => updateA s.processes pid
                    { info with allocated_pages := info.allocated_pages + 1 }
                | none => s.processes) } := by
            simp [PagingSimulator.allocate_page, hpt, hent, hcond, halloc, hgf, hnoop]
          rw [hres]
          exact happ
    | none =>
      cases halloc : MemoryAllocator.allocate s.allocator s.physical_memory.frames pid pg
          (size.getD s.physical_memory.frame_size) with
      | none =>
        have hres : (s.allocate_page pid pg size).2 = { s with
            page_tables := updateA s.page_tables pid ({ pt with
              entries := pt.entries ++ [(pg, PageTableEntry.init pg)] }) } := by
          simp [PagingSimulator.allocate_page, hpt, hent, PageTable.create_page,
            PageTableEntry.init, halloc]
        rw [hres]
        exact inv_append_entry s pid pg pt hinv hpt hent
      | some r =>
        obtain ⟨fid, frames2, alloc2⟩ := r
        obtain ⟨i, f, f2, hfi, hfid, hfa, hfr2⟩ :=
          allocate_spec s.allocator s.physical_memory.frames pid pg _ fid frames2
            alloc2 halloc
        have hidx : fid = i := by rw [hfid, hinv.ids i f hfi]
        have hf2st := (frame_allocate_some hfa).2.2.2
        have hlen : i < s.physical_memory.frames.length := get?_some_lt hfi
        have hgf : PhysicalMemory.get_frame { s.physical_memory with frames := frames2 } fid
            = some f2 := by
          subst hfr2
          subst hidx
          exact list_get?_set_self _ _ hlen
        have hnoop : ∀ sz2, f2.allocate pid pg sz2 = none :=
          fun _ => frame_allocate_none_of_alloc hf2st
        have hp1some : lookupA (pt.entries ++ [(pg, PageTableEntry.init pg)]) pg
            = some (PageTableEntry.init pg) := by
          rw [lookupA_append_of_none _ hent]
          simp [lookupA]
        have hp1nd : ((pt.entries ++ [(pg, PageTableEntry.init pg)]).map Prod.fst).Nodup := by
          simp only [List.map_append, List.map_cons, List.map_nil]
          exact nodup_append_single (hinv.entk pid pt hpt) ((lookupA_none_iff _ _).1 hent)
        have hp1look : ∀ pg0 e0,
            lookupA (pt.entries ++ [(pg, PageTableEntry.init pg)]) pg0 = some e0 →
            e0.present_bit = true → lookupA pt.entries pg0 = some e0 := by
          intro pg0 e0 h1 hp0
          rcases lookupA_append_single_cases h1 with h2 | ⟨_, _, h3⟩
          · exact h2
          · exfalso
            rw [h3] at hp0
            cases hp0
        have happ : SimInv { s with
            physical_memory := { s.physical_memory with frames := frames2 },
            page_tables := updateA s.page_tables pid ({ pt with
              entries := updateA (pt.entries ++ [(pg, PageTableEntry.init pg)]) pg
                ((PageTableEntry.init pg).map_to_frame fid) }),
            allocator := alloc2,
            processes := (match lookupA s.processes pid with
              | some info => updateA s.processes pid
                  { info with allocated_pages := info.allocated_pages + 1 }
              | none => s.processes) } :=
          inv_alloc_success s pid pg _ fid pt
            { pt with entries := pt.entries ++ [(pg, PageTableEntry.init pg)] }
            (PageTableEntry.init pg) frames2 alloc2 _ hinv hpt hp1look hp1some hp1nd halloc
        have hres : (s.allocate_page pid pg size).2 = { s with
            physical_memory := { s.physical_memory with frames := frames2 },
            page_tables := updateA s.page_tables pid ({ pt with
              entries := updateA (pt.entries ++ [(pg, PageTableEntry.init pg)]) pg
                ((PageTableEntry.init pg).map_to_frame fid) }),
            allocator := alloc2,
            processes := (match lookupA s.processes pid with
              | some info => updateA s.processes pid
                  { info with allocated_pages := info.allocated_pages + 1 }
              | none => s.processes) } := by
          simp [PagingSimulator.allocate_page, hpt, hent, PageTable.create_page,
            PageTableEntry.init, halloc, hgf, hnoop]
        rw [hres]
        exact happ

theorem inv_counters (s : PagingSimulator) (pf st : Nat) (hinv : SimInv s) :
    SimInv { s with page_faults := pf, successful_translations := st } :=
  ⟨hinv.ids, hinv.ndk, hinv.entk, hinv.pok, hinv.exc⟩

theorem inv_mark_update (s : PagingSimulator) (pid pg : Nat) (pt : PageTable)
    (e e2 : PageTableEntry) (pf st : Nat)
    (hinv : SimInv s)
    (hpt : lookupA s.page_tables pid = some pt)
    (hent : lookupA pt.entries pg = some e)
    (hpres : e2.present_bit = e.present_bit)
    (hfid : e2.frame_id = e.frame_id) :
    SimInv { s with
      page_tables := updateA s.page_tables pid ({ pt with
        entries := updateA pt.entries pg e2 }),
      page_faults := pf, successful_translations := st } := by
  have hdec : ∀ pid0 X, lookupA (updateA s.page_tables pid ({ pt with
      entries := updateA pt.entries pg e2 })) pid0 = some X →
      (pid0 = pid ∧ X = { pt with entries := updateA pt.entries pg e2 })
        ∨ (pid0 ≠ pid ∧ lookupA s.page_tables pid0 = some X) := by
    intro pid0 X hX
    rw [lookupA_updateA] at hX
    by_cases h0 : pid0 = pid
    · rw [if_pos h0, hpt] at hX
      exact Or.inl ⟨h0, (Option.some.inj hX).symm⟩
    · rw [if_neg h0] at hX
      exact Or.inr ⟨h0, hX⟩
  have hentdec : ∀ pg0 e0, lookupA (updateA pt.entries pg e2) pg0 = some e0 →
      (pg0 = pg ∧ e0 = e2) ∨ (pg0 ≠ pg ∧ lookupA pt.entries pg0 = some e0) := by
    intro pg0 e0 h0
    rw [lookupA_updateA] at h0
    by_cases hg0 : pg0 = pg
    · rw [if_pos hg0, hent] at h0
      exact Or.inl ⟨hg0, (Option.some.inj h0).symm⟩
    · rw [if_neg hg0] at h0
      exact Or.inr ⟨hg0, h0⟩
  have red : ∀ p t g e0, lookupA (updateA s.page_tables pid ({ pt with
      entries := updateA pt.entries pg e2 })) p = some t →
      lookupA t.entries g = some e0 →
      ∃ t0 e0', lookupA s.page_tables p = some t0 ∧ lookupA t0.entries g = some e0' ∧
        e0'.present_bit = e0.present_bit ∧ e0'.frame_id = e0.frame_id := by
    intro p t g e0 ht hent2
    rcases hdec p t ht with ⟨hpe, hte⟩ | ⟨_, hte⟩
    · rw [hte] at hent2
      rcases hentdec g e0 hent2 with ⟨hge, hee⟩ | ⟨_, h3⟩
      · refine ⟨pt, e, by rw [hpe]; exact hpt, by rw [hge]; exact hent, ?_, ?_⟩
        · rw [hee, hpres]
        · rw [hee, hfid]
      · exact ⟨pt, e0, by rw [hpe]; exact hpt, h3, rfl, rfl⟩
    · exact ⟨t, e0, hte, hent2, rfl, rfl⟩
  refine ⟨hinv.ids, ?_, ?_, ?_, ?_⟩
  · rw [keys_updateA]
    exact hinv.ndk
  · intro pid0 pt0 h0
    rcases hdec pid0 pt0 h0 with ⟨_, h1⟩ | ⟨_, h1⟩
    · rw [h1]
      simp only [keys_updateA]
      exact hinv.entk pid pt hpt
    · exact hinv.entk pid0 pt0 h1
  · intro pid0 pt0 pg0 e0 h0 he0 hp0
    obtain ⟨t0, e0', ht0, he0', hpp, hff⟩ := red pid0 pt0 pg0 e0 h0 he0
    obtain ⟨fid0, g, hfe, hfg, hgst⟩ := hinv.pok pid0 t0 pg0 e0' ht0 he0' (by rw [hpp, hp0])
    exact ⟨fid0, g, by rw [← hff]; exact hfe, hfg, hgst⟩
  · intro p1 t1 g1 e1 p2 t2 g2 e2x fid h1 he1 h2 he2 hp1 hp2 hf1 hf2
    obtain ⟨t10, e10, ht10, he10, hpp1, hff1⟩ := red p1 t1 g1 e1 h1 he1
    obtain ⟨t20, e20, ht20, he20, hpp2, hff2⟩ := red p2 t2 g2 e2x h2 he2
    exact hinv.exc p1 t10 g1 e10 p2 t20 g2 e20 fid ht10 he10 ht20 he20
      (by rw [hpp1, hp1]) (by rw [hpp2, hp2])
      (by rw [hff1]; exact hf1) (by rw [hff2]; exact hf2)

theorem inv_dealloc (s : PagingSimulator) (pid pg : Nat) (hinv : SimInv s) :
    SimInv (s.deallocate_page pid pg).2 := by
  cases hpt : lookupA s.page_tables pid with
  | none =>
    have hres : s.deallocate_page pid pg = (false, s) := by
      simp [PagingSimulator.deallocate_page, hpt]
    rw [hres]
    exact hinv
  | some pt =>
    cases hent : lookupA pt.entries pg with
    | none =>
      have hres : s.deallocate_page pid pg = (false, s) := by
        simp [PagingSimulator.deallocate_page, hpt, hent]
      rw [hres]
      exact hinv
    | some e =>
      cases hpres : e.present_bit with
      | false =>
        have hres : s.deallocate_page pid pg = (false, s) := by
          simp [PagingSimulator.deallocate_page, hpt, hent, hpres]
        rw [hres]
        exact hinv
      | true =>
        cases hfid : e.frame_id with
        | none =>
          have hres : s.deallocate_page pid pg = (false, s) := by
            simp [PagingSimulator.deallocate_page, hpt, hent, hpres, hfid]
          rw [hres]
          exact hinv
        | some fid =>
          obtain ⟨fid0, f, hfe, hfg, hfst⟩ := hinv.pok pid pt pg e hpt hent hpres
          have hfid0 : fid0 = fid := by
            rw [hfe] at hfid
            exact Option.some.inj hfid
          subst hfid0
          have hdel : f.deallocate
              = some (Frame.mk f.frame_id f.size FrameStatus.FREE none none 0) := by
            unfold Frame.deallocate
            rw [if_pos hfst]
          have hres : (s.deallocate_page pid pg).2 = { s with
              physical_memory := { s.physical_memory with
                frames := s.physical_memory.frames.set fid0
                  (Frame.mk f.frame_id f.size FrameStatus.FREE none none 0) },
              page_tables := updateA s.page_tables pid ({ pt with
                entries := updateA pt.entries pg e.unmap_frame }),
              processes := (match lookupA s.processes pid with
                | some info => updateA s.processes pid
                    { info with allocated_pages := info.allocated_pages - 1 }
                | none => s.processes) } := by
            have hfg2 : s.physical_memory.frames[fid0]? = some f := by
              rw [← List.get?_eq_getElem?]
              exact hfg
            simp [PagingSimulator.deallocate_page, hpt, hent, hpres, hfid,
              PhysicalMemory.get_frame, hfg, hfg2, hdel]
          rw [hres]
          have hdec : ∀ pid0 X, lookupA (updateA s.page_tables pid ({ pt with
              entries := updateA pt.entries pg e.unmap_frame })) pid0 = some X →
              (pid0 = pid ∧ X = { pt with entries := updateA pt.entries pg e.unmap_frame })
                ∨ (pid0 ≠ pid ∧ lookupA s.page_tables pid0 = some X) := by
            intro pid0 X hX
            rw [lookupA_updateA] at hX
            by_cases h0 : pid0 = pid
            · rw [if_pos h0, hpt] at hX
              exact Or.inl ⟨h0, (Option.some.inj hX).symm⟩
            · rw [if_neg h0] at hX
              exact Or.inr ⟨h0, hX⟩
          have hentdec : ∀ pg0 e0, lookupA (updateA pt.entries pg e.unmap_frame) pg0 = some e0 →
              (pg0 = pg ∧ e0 = e.unmap_frame) ∨ (pg0 ≠ pg ∧ lookupA pt.entries pg0 = some e0) := by
            intro pg0 e0 h0
            rw [lookupA_updateA] at h0
            by_cases hg0 : pg0 = pg
            · rw [if_pos hg0, hent] at h0
              exact Or.inl ⟨hg0, (Option.some.inj h0).symm⟩
            · rw [if_neg hg0] at h0
              exact Or.inr ⟨hg0, h0⟩
          have hunp : (e.unmap_frame).present_bit = false := rfl
          have red : ∀ p t g e0, lookupA (updateA s.page_tables pid ({ pt with
              entries := updateA pt.entries pg e.unmap_frame })) p = some t →
              lookupA t.entries g = some e0 → e0.present_bit = true →
              ∃ t0, lookupA s.page_tables p = some t0 ∧ lookupA t0.entries g = some e0 ∧
                ¬ (p = pid ∧ g = pg) := by
            intro p t g e0 ht hent2 hp0
            rcases hdec p t ht with ⟨hpe, hte⟩ | ⟨hpne, hte⟩
            · rw [hte] at hent2
              rcases hentdec g e0 hent2 with ⟨_, hee⟩ | ⟨hgne, h3⟩
              · exfalso
                rw [hee, hunp] at hp0
                cases hp0
              · exact ⟨pt, by rw [hpe]; exact hpt, h3, fun hc => hgne hc.2⟩
            · exact ⟨t, hte, hent2, fun hc => hpne hc.1⟩
          refine ⟨?_, ?_, ?_, ?_, ?_⟩
          · intro j g hg
            by_cases hj : j = fid0
            · subst hj
              have hlen : j < s.physical_memory.frames.length := get?_some_lt hfg
              rw [list_get?_set_self _ _ hlen] at hg
              have hgf2 : _ = g := Option.some.inj hg
              rw [← hgf2]
              exact hinv.ids j f hfg
            · rw [list_get?_set_ne _ _ (fun hc => hj hc.symm)] at hg
              exact hinv.ids j g hg
          · rw [keys_updateA]
            exact hinv.ndk
          · intro pid0 pt0 h0
            rcases hdec pid0 pt0 h0 with ⟨_, h1⟩ | ⟨_, h1⟩
            · rw [h1]
              simp only [keys_updateA]
              exact hinv.entk pid pt hpt
            · exact hinv.entk pid0 pt0 h1
          · intro pid0 pt0 pg0 e0 h0 he0 hp0
            obtain ⟨t0, ht0, he0', hne⟩ := red pid0 pt0 pg0 e0 h0 he0 hp0
            obtain ⟨fid1, g, hfe1, hfg1, hgst1⟩ := hinv.pok pid0 t0 pg0 e0 ht0 he0' hp0
            have hne1 : fid1 ≠ fid0 := by
              intro hc
              subst hc
              have := hinv.exc pid0 t0 pg0 e0 pid pt pg e fid1 ht0 he0' hpt hent hp0
                hpres hfe1 hfe
              exact hne ⟨this.1, this.2⟩
            refine ⟨fid1, g, hfe1, ?_, hgst1⟩
            rw [list_get?_set_ne _ _ (fun hc => hne1 hc.symm)]
            exact hfg1
          · intro p1 t1 g1 e1 p2 t2 g2 e2x fid2 h1 he1 h2 he2 hp1 hp2 hf1 hf2
            obtain ⟨t10, ht10, he10, _⟩ := red p1 t1 g1 e1 h1 he1 hp1
            obtain ⟨t20, ht20, he20, _⟩ := red p2 t2 g2 e2x h2 he2 hp2
            exact hinv.exc p1 t10 g1 e1 p2 t20 g2 e2x fid2 ht10 he10 ht20 he20
              hp1 hp2 hf1 hf2

theorem freeMapped_get_preserve (pt : PageTable) :
    ∀ (l : List Nat) (pm : PhysicalMemory) (j : Nat),
    (∀ pg, pg ∈ l → ∀ e, lookupA pt.entries pg = some e → e.frame_id ≠ some j) →
    (freeMapped pt pm l).frames.get? j = pm.frames.get? j := by
  intro l
  induction l with
  | nil =>
    intro pm j _
    rfl
  | cons pg rest ih =>
    intro pm j hno
    have hrest : ∀ pg0, pg0 ∈ rest → ∀ e, lookupA pt.entries pg0 = some e →
        e.frame_id ≠ some j :=
      fun pg0 hm e he => hno pg0 (List.mem_cons_of_mem _ hm) e he
    cases hent : lookupA pt.entries pg with
    | none =>
      rw [show freeMapped pt pm (pg :: rest) = freeMapped pt pm rest from by
        simp only [freeMapped]; rw [hent]]
      exact ih pm j hrest
    | some e =>
      cases hfid : e.frame_id with
      | none =>
        rw [show freeMapped pt pm (pg :: rest) = freeMapped pt pm rest from by
          simp only [freeMapped]; rw [hent]; simp [hfid]]
        exact ih pm j hrest
      | some fid =>
        have hne : fid ≠ j := by
          intro hc
          exact hno pg (List.mem_cons_self _ _) e hent (by rw [hfid, hc])
        cases hgf : pm.get_frame fid with
        | none =>
          rw [show freeMapped pt pm (pg :: rest) = freeMapped pt pm rest from by
            simp only [freeMapped]; rw [hent]; simp [hfid, hgf]]
          exact ih pm j hrest
        | some f =>
          cases hdel : f.deallocate with
          | none =>
            rw [show freeMapped pt pm (pg :: rest) = freeMapped pt pm rest from by
              simp only [freeMapped]; rw [hent]; simp [hfid, hgf, hdel]]
            exact ih pm j hrest
          | some f2 =>
            rw [show freeMapped pt pm (pg :: rest)
                = freeMapped pt { pm with frames := pm.frames.set fid f2 } rest from by
              simp only [freeMapped]; rw [hent]; simp [hfid, hgf, hdel]]
            rw [ih _ j hrest]
            exact list_get?_set_ne _ _ hne

theorem freeMapped_ids (pt : PageTable) :
    ∀ (l : List Nat) (pm : PhysicalMemory),
    (∀ i f, pm.frames.get? i = some f → f.frame_id = i) →
    ∀ i f, (freeMapped pt pm l).frames.get? i = some f → f.frame_id = i := by
  intro l
  induction l with
  | nil =>
    intro pm hids i f hf
    exact hids i f hf
  | cons pg rest ih =>
    intro pm hids i f hf
    cases hent : lookupA pt.entries pg with
    | none =>
      rw [show freeMapped pt pm (pg :: rest) = freeMapped pt pm rest from by
        simp only [freeMapped]; rw [hent]] at hf
      exact ih pm hids i f hf
    | some e =>
      cases hfid : e.frame_id with
      | none =>
        rw [show freeMapped pt pm (pg :: rest) = freeMapped pt pm rest from by
          simp only [freeMapped]; rw [hent]; simp [hfid]] at hf
        exact ih pm hids i f hf
      | some fid =>
        cases hgf : pm.get_frame fid with
        | none =>
          rw [show freeMapped pt pm (pg :: rest) = freeMapped pt pm rest from by
            simp only [freeMapped]; rw [hent]; simp [hfid, hgf]] at hf
          exact ih pm hids i f hf
        | some f0 =>
          cases hdel : f0.deallocate with
          | none =>
            rw [show freeMapped pt pm (pg :: rest) = freeMapped pt pm rest from by
              simp only [freeMapped]; rw [hent]; simp [hfid, hgf, hdel]] at hf
            exact ih pm hids i f hf
          | some f2 =>
            rw [show freeMapped pt pm (pg :: rest)
                = freeMapped pt { pm with frames := pm.frames.set fid f2 } rest from by
              simp only [freeMapped]; rw [hent]; simp [hfid, hgf, hdel]] at hf
            refine ih _ ?_ i f hf
            intro j g hg
            by_cases hj : j = fid
            · subst hj
              have hlen : j < pm.frames.length := get?_some_lt hgf
              rw [list_get?_set_self _ _ hlen] at hg
              have hg2 : f2 = g := Option.some.inj hg
              rw [← hg2]
              rw [(frame_deallocate_some hdel).2.1]
              exact hids j f0 hgf
            · rw [list_get?_set_ne _ _ (fun hc => hj hc.symm)] at hg
              exact hids j g hg

theorem mem_mapped_pages {pt : PageTable} {pg : Nat} (h : pg ∈ pt.get_mapped_pages) :
    ∃ e, (pg, e) ∈ pt.entries ∧ e.present_bit = true := by
  unfold PageTable.get_mapped_pages at h
  obtain ⟨kv, hmem, heq⟩ := List.mem_map.1 h
  obtain ⟨pg', e⟩ := kv
  obtain ⟨hmem2, hpres⟩ := List.mem_filter.1 hmem
  have : pg' = pg := heq
  subst this
  exact ⟨e, hmem2, by simpa using hpres⟩

theorem inv_remove (s : PagingSimulator) (pid : Nat) (hinv : SimInv s) :
    SimInv (s.remove_process pid).2 := by
  cases hpt : lookupA s.page_tables pid with
  | none =>
    have hres : s.remove_process pid = (false, s) := by
      simp [PagingSimulator.remove_process, hpt]
    rw [hres]
    exact hinv
  | some pt =>
    have hres : (s.remove_process pid).2 = { s with
        physical_memory := freeMapped pt s.physical_memory pt.get_mapped_pages,
        page_tables := eraseA s.page_tables pid,
        processes := eraseA s.processes pid } := by
      simp [PagingSimulator.remove_process, hpt]
    rw [hres]
    have hold : ∀ pid0 pt0, lookupA (eraseA s.page_tables pid) pid0 = some pt0 →
        pid0 ≠ pid ∧ lookupA s.page_tables pid0 = some pt0 := by
      intro pid0 pt0 h0
      by_cases hp0 : pid0 = pid
      · exfalso
        subst hp0
        rw [lookupA_eraseA_self _ _ hinv.ndk] at h0
        cases h0
      · exact ⟨hp0, by rw [← lookupA_eraseA_ne _ hp0]; exact h0⟩
    have hframe : ∀ pid0 pt0 pg0 e0, pid0 ≠ pid →
        lookupA s.page_tables pid0 = some pt0 →
        lookupA pt0.entries pg0 = some e0 → e0.present_bit = true →
        ∀ fid0, e0.frame_id = some fid0 →
        (freeMapped pt s.physical_memory pt.get_mapped_pages).frames.get? fid0
          = s.physical_memory.frames.get? fid0 := by
      intro pid0 pt0 pg0 e0 hne ht0 he0 hp0 fid0 hfid0
      apply freeMapped_get_preserve
      intro pg1 hm1 e1 he1 hc
      obtain ⟨e1', hmem1, hpres1⟩ := mem_mapped_pages hm1
      have he1' : lookupA pt.entries pg1 = some e1' :=
        mem_lookupA hmem1 (hinv.entk pid pt hpt)
      have hee : e1 = e1' := by
        rw [he1] at he1'
        exact Option.some.inj he1'
      subst hee
      have := hinv.exc pid pt pg1 e1 pid0 pt0 pg0 e0 fid0 hpt he1 ht0 he0 hpres1 hp0
        hc hfid0
      exact hne this.1.symm
    refine ⟨?_, ?_, ?_, ?_, ?_⟩
    · exact freeMapped_ids pt pt.get_mapped_pages s.physical_memory hinv.ids
    · exact (keys_eraseA_sublist _ _).nodup hinv.ndk
    · intro pid0 pt0 h0
      obtain ⟨_, h1⟩ := hold pid0 pt0 h0
      exact hinv.entk pid0 pt0 h1
    · intro pid0 pt0 pg0 e0 h0 he0 hp0
      obtain ⟨hne, h1⟩ := hold pid0 pt0 h0
      obtain ⟨fid0, g, hfe, hfg, hgst⟩ := hinv.pok pid0 pt0 pg0 e0 h1 he0 hp0
      refine ⟨fid0, g, hfe, ?_, hgst⟩
      rw [hframe pid0 pt0 pg0 e0 hne h1 he0 hp0 fid0 hfe]
      exact hfg
    · intro p1 t1 g1 e1 p2 t2 g2 e2 fid h1 he1 h2 he2 hp1 hp2 hf1 hf2
      obtain ⟨_, k1⟩ := hold p1 t1 h1
      obtain ⟨_, k2⟩ := hold p2 t2 h2
      exact hinv.exc p1 t1 g1 e1 p2 t2 g2 e2 fid k1 he1 k2 he2 hp1 hp2 hf1 hf2

theorem mark_referenced_present (e : PageTableEntry) :
    e.mark_referenced.present_bit = e.present_bit := rfl

theorem mark_referenced_frame (e : PageTableEntry) :
    e.mark_referenced.frame_id = e.frame_id := rfl

theorem mark_modified_present (e : PageTableEntry) :
    e.mark_modified.present_bit = e.present_bit := rfl

theorem mark_modified_frame (e : PageTableEntry) :
    e.mark_modified.frame_id = e.frame_id := rfl

theorem inv_translate (s : PagingSimulator) (pid addr : Nat) (hinv : SimInv s) :
    SimInv (s.translate_address pid addr).2 := by
  cases hpt : lookupA s.page_tables pid with
  | none =>
    have hres : (s.translate_address pid addr).2 = s := by
      simp [PagingSimulator.translate_address, hpt]
    rw [hres]
    exact hinv
  | some pt =>
    cases hent : lookupA pt.entries (addr / pt.page_size) with
    | none =>
      have hres : (s.translate_address pid addr).2
          = { s with page_faults := s.page_faults + 1 } := by
        simp [PagingSimulator.translate_address, hpt, hent]
      rw [hres]
      exact inv_counters s _ _ hinv
    | some e =>
      cases hpres : e.present_bit with
      | false =>
        have hres : (s.translate_address pid addr).2 = { s with
            page_tables := updateA s.page_tables pid ({ pt with
              entries := updateA pt.entries (addr / pt.page_size) e.mark_referenced }),
            page_faults := s.page_faults + 1 } := by
          simp [PagingSimulator.translate_address, hpt, hent, hpres]
        rw [hres]
        exact inv_mark_update s pid (addr / pt.page_size) pt e e.mark_referenced _ _
          hinv hpt hent (mark_referenced_present e) (mark_referenced_frame e)
      | true =>
        cases hfid : e.frame_id with
        | none =>
          have hres : (s.translate_address pid addr).2 = { s with
              page_tables := updateA s.page_tables pid ({ pt with
                entries := updateA pt.entries (addr / pt.page_size) e.mark_referenced }),
              page_faults := s.page_faults + 1 } := by
            simp [PagingSimulator.translate_address, hpt, hent, hpres, hfid]
          rw [hres]
          exact inv_mark_update s pid (addr / pt.page_size) pt e e.mark_referenced _ _
            hinv hpt hent (mark_referenced_present e) (mark_referenced_frame e)
        | some fid =>
          cases hgf : s.physical_memory.get_frame fid with
          | none =>
            have hres : (s.translate_address pid addr).2
                = { s with page_faults := s.page_faults + 1 } := by
              simp [PagingSimulator.translate_address, hpt, hent, hpres, hfid, hgf]
            rw [hres]
            exact inv_counters s _ _ hinv
          | some fr =>
            have hres : (s.translate_address pid addr).2 = { s with
                page_tables := updateA s.page_tables pid ({ pt with
                  entries := updateA pt.entries (addr / pt.page_size) e.mark_referenced }),
                successful_translations := s.successful_translations + 1 } := by
              simp [PagingSimulator.translate_address, hpt, hent, hpres, hfid, hgf]
            rw [hres]
            exact inv_mark_update s pid (addr / pt.page_size) pt e e.mark_referenced _ _
              hinv hpt hent (mark_referenced_present e) (mark_referenced_frame e)

theorem inv_access (s : PagingSimulator) (pid pg : Nat) (w : Bool) (hinv : SimInv s) :
    SimInv (s.access_page pid pg w).2 := by
  cases hpt : lookupA s.page_tables pid with
  | none =>
    have hres : (s.access_page pid pg w).2 = s := by
      simp [PagingSimulator.access_page, hpt]
    rw [hres]
    exact hinv
  | some pt =>
    cases hent : lookupA pt.entries pg with
    | none =>
      have hres : (s.access_page pid pg w).2
          = { s with page_faults := s.page_faults + 1 } := by
        simp [PagingSimulator.access_page, hpt, hent]
      rw [hres]
      exact inv_counters s _ _ hinv
    | some e =>
      cases hpres : e.present_bit with
      | false =>
        have hres : (s.access_page pid pg w).2
            = { s with page_faults := s.page_faults + 1 } := by
          simp [PagingSimulator.access_page, hpt, hent, hpres]
        rw [hres]
        exact inv_counters s _ _ hinv
      | true =>
        cases w with
        | false =>
          have hres : (s.access_page pid pg false).2 = { s with
              page_tables := updateA s.page_tables pid ({ pt with
                entries := updateA pt.entries pg e.mark_referenced }),
              successful_translations := s.successful_translations + 1 } := by
            simp [PagingSimulator.access_page, hpt, hent, hpres]
          rw [hres]
          exact inv_mark_update s pid pg pt e e.mark_referenced _ _
            hinv hpt hent (mark_referenced_present e) (mark_referenced_frame e)
        | true =>
          have hres : (s.access_page pid pg true).2 = { s with
              page_tables := updateA s.page_tables pid ({ pt with
                entries := updateA pt.entries pg e.mark_referenced.mark_modified }),
              successful_translations := s.successful_translations + 1 } := by
            simp [PagingSimulator.access_page, hpt, hent, hpres]
          rw [hres]
          exact inv_mark_update s pid pg pt e e.mark_referenced.mark_modified _ _
            hinv hpt hent
            ((mark_modified_present e.mark_referenced).trans (mark_referenced_present e))
            ((mark_modified_frame e.mark_referenced).trans (mark_referenced_frame e))

theorem inv_reset (s : PagingSimulator) (hinv : SimInv s) : SimInv s.reset := by
  refine ⟨?_, ?_, ?_, ?_, ?_⟩
  · intro i f hf
    simp only [PagingSimulator.reset, PhysicalMemory.reset] at hf
    rw [list_get?_map] at hf
    cases hg : s.physical_memory.frames.get? i with
    | none =>
      rw [hg] at hf
      cases hf
    | some g =>
      rw [hg] at hf
      have h2 : g.deallocateIgnore = f := Option.some.inj hf
      have hid : g.deallocateIgnore.frame_id = g.frame_id := by
        unfold Frame.deallocateIgnore
        cases hd : g.deallocate with
        | none => rfl
        | some g2 => exact (frame_deallocate_some hd).2.1
      rw [← h2, hid]
      exact hinv.ids i g hg
  · simp [PagingSimulator.reset]
  · intro pid pt h
    simp [PagingSimulator.reset, lookupA] at h
  · intro pid pt pg e h
    simp [PagingSimulator.reset, lookupA] at h
  · intro p1 t1 g1 e1 p2 t2 g2 e2 fid h1
    simp [PagingSimulator.reset, lookupA] at h1

theorem reachable_SimInv {s : PagingSimulator} (h : Reachable s) : SimInv s := by
  induction h with
  | init n fs strat => exact inv_init n fs strat
  | create_process s pid np _ ih => exact inv_create s pid np ih
  | allocate_page s pid pg size _ ih => exact inv_alloc s pid pg size ih
  | deallocate_page s pid pg _ ih => exact inv_dealloc s pid pg ih
  | remove_process s pid _ ih => exact inv_remove s pid ih
  | translate_address s pid addr _ ih => exact inv_translate s pid addr ih
  | access_page s pid pg w _ ih => exact inv_access s pid pg w ih
  | reset s _ ih => exact inv_reset s ih

/-- C5: in every state reachable from a fresh PagingSimulator through its
public operations, no two present page-table entries — across all
processes — reference the same frame id. -/
theorem exclusive_frame_ownership (s : PagingSimulator) (h : Reachable s) :
    ExclusiveOwnership s :=
  (reachable_SimInv h).exc

/-- Witness for C5 at a concrete reachable state: create a process and
allocate one page. -/
theorem exclusive_frame_ownership_witness :
    ExclusiveOwnership ((((PagingSimulator.init 2 16
      AllocationStrategy.FIRST_FIT).create_process 1 0).2.allocate_page 1 0 none).2) :=
  exclusive_frame_ownership _
    (Reachable.allocate_page _ 1 0 none
      (Reachable.create_process _ 1 0
        (Reachable.init 2 16 AllocationStrategy.FIRST_FIT)))
